import Mathlib

/-!
# Control/data-flow graph pass (`src/DFG/DFGPass.cpp`)

A shallow embedding of `DFGPass::getBBName` and `DFGPass::runOnModule`, followed by
theorems about them.

The intermediate representation is owned by the host compiler and is only read by the
pass.  It is modelled by plain data:

* a pointer to a basic block (`BasicBlock*`) is `Option Nat`: `none` is the null pointer
  and `some a` is the block stored at address `a`;
* the name of a block or function is read through its address (`BB->getName()`,
  `F->getName()`), so an `IRModule` carries the two lookup functions `bbName`, `fnName`;
* `int num` starts at `0` and is only ever incremented, so its values are naturals; signed
  overflow past `INT_MAX` is undefined behaviour in the source and lies outside the model;
* a `StringRef` is a view that owns no characters.  The second component of a `node` is
  the string on which the view was built.  For the null pointer and for a named block the
  view stays valid (a string literal, the name kept by the block).  For an anonymous block
  it looks at a temporary `std::string` that is destroyed when `getBBName` returns
  (`returnsDanglingView`), so what the program later reads through it is not defined by the
  source: the theorems on anonymous blocks speak of block identities, of the strings the
  code synthesizes and of the counter values they are synthesized from, not of what is
  read through a stored view;
* the output stream is followed through its failed state (`OutStream`): after a failed open
  the writes and the close fail, and the destructor of the stream ends the process, so the
  call does not return (`RunResult.returned`).
-/

namespace DFG

/-! ## The intermediate representation read by the pass -/

/-- Pointer to a basic block: `none` is the null pointer, `some a` the block at address `a`. -/
abbrev BlockPtr := Option Nat

/-- An operand (`Value*`) as far as the pass looks at it: either `dyn_cast<Instruction>`
succeeds, and `getParent()` yields the owning block, or it does not (constants, arguments,
block references, ...). -/
inductive Value where
  | instruction (parent : BlockPtr)
  | other
  deriving DecidableEq, Repr

/-- An instruction with its operand list `I.operands()`. -/
structure Instruction where
  operands : List Value
  deriving DecidableEq, Repr

/-- A basic block: its address `&BB`, its instructions in order, and `successors(&BB)`,
the successor list of its terminator (empty when the block has no terminator). -/
structure BasicBlock where
  addr : Nat
  insts : List Instruction
  succs : List BlockPtr
  deriving DecidableEq, Repr

/-- A function: its address `&F`, the answer of `F.isDeclaration()`, and its blocks in the
order the IR exposes them.  (The host guarantees that a declaration has no blocks; the pass
does not rely on it.) -/
structure IRFunction where
  addr : Nat
  isDeclaration : Bool
  blocks : List BasicBlock
  deriving DecidableEq, Repr

/-- A module: its functions in order, and the names read through block and function
addresses.  An empty string is the name of an anonymous block. -/
structure IRModule where
  functions : List IRFunction
  bbName : Nat → String
  fnName : Nat → String

/-! ## The data of the pass -/

/-- Source: `typedef std::pair<BasicBlock*, StringRef> node;`.  The second component is the
string on which the `StringRef` was built. -/
abbrev node := BlockPtr × String

/-- Source: `typedef std::pair<node, node> edge;` -/
abbrev edge := node × node

/-- Source: `typedef std::set<node> node_set;`, held as the increasing sequence of its
elements. -/
abbrev node_set := List node

/-- Source: `typedef std::list<edge> edge_list;` -/
abbrev edge_list := List edge

/-- The mutable members of `struct DFGPass`.  `functionNodes` is the
`std::map<Function*, node_set>`, held as its sequence of entries in increasing key order. -/
structure DFGPass where
  dataFlowEdges : edge_list
  controlFlowEdges : edge_list
  functionNodes : List (Nat × node_set)
  num : Nat
  deriving DecidableEq, Repr

/-- The constructor `DFGPass() : ModulePass(ID) { num = 0; }`. -/
def DFGPass.new : DFGPass :=
  { dataFlowEdges := [], controlFlowEdges := [], functionNodes := [], num := 0 }

/-- Pointer comparison `a < b`, the null pointer being the least address. -/
def ptrLt : BlockPtr → BlockPtr → Bool
  | none, none => false
  | none, some _ => true
  | some _, none => false
  | some a, some b => decide (a < b)

/-- The `operator<` of `std::pair<BasicBlock*, StringRef>`: first components, then second
components on a tie. -/
def nodeLt (x y : node) : Bool :=
  ptrLt x.1 y.1 || (!ptrLt y.1 x.1 && decide (x.2 < y.2))

/-- The member `std::set<node>::insert`: the element is placed at its position in the
order, and nothing happens when an equivalent element is already there. -/
def setInsert (x : node) : node_set → node_set
  | [] => [x]
  | y :: ys =>
    if nodeLt x y then x :: y :: ys
    else if nodeLt y x then y :: setInsert x ys
    else y :: ys

/-- The lookup `functionNodes[&F]` of `std::map`: an entry with an empty node set is created
when the key has none. -/
def mapEnsure (k : Nat) : List (Nat × node_set) → List (Nat × node_set)
  | [] => [(k, [])]
  | (k', v) :: rest =>
    if k < k' then (k, []) :: (k', v) :: rest
    else if k' < k then (k', v) :: mapEnsure k rest
    else (k', v) :: rest

/-- A write through the reference `node_set &basicBlockNodes = functionNodes[&F]`: the node
set stored under key `k` is replaced by `f` of it. -/
def mapAdjust (k : Nat) (f : node_set → node_set) : List (Nat × node_set) → List (Nat × node_set)
  | [] => []
  | (k', v) :: rest =>
    if k' = k then (k', f v) :: rest else (k', v) :: mapAdjust k f rest

/-! ## `getBBName` -/

/-- Source (lines 37-44):
```
StringRef getBBName(BasicBlock* BB) {
    if (!BB) return "undefined";
    if (BB->getName().empty()) { return "BB_" + Twine(num++).str(); }
    else { return BB->getName(); }
}
```
The result is the string on which the returned `StringRef` is built, and the value of `num`
after the call; `Twine(num).str()` is the decimal rendering `Nat.repr num` of the counter.
The views of lines 38 and 42 stay valid after the call: they look at a string literal and
at the name kept by the block.  The view of line 40 looks at the temporary `std::string`
made by `"BB_" + Twine(num++).str()`, which is destroyed when the `return` statement
completes: for an anonymous block the first component is the string the code synthesized,
and the caller is left with a dangling view of it (`returnsDanglingView`). -/
def getBBName (bbName : Nat → String) (BB : BlockPtr) (num : Nat) : String × Nat :=
  match BB with
  | none => ("undefined", num)
  | some a =>
    if bbName a = "" then ("BB_" ++ Nat.repr num, num + 1)
    else (bbName a, num)

/-- Whether the `StringRef` returned by `getBBName` dangles, branch by branch: line 38
returns a view of a string literal and line 42 a view of the name kept by the block, both
alive after the call; line 40 returns a view of a temporary `std::string` that no longer
exists when the caller receives the view. -/
def returnsDanglingView (bbName : Nat → String) (BB : BlockPtr) : Bool :=
  match BB with
  | none => false
  | some a => if bbName a = "" then true else false

/-- The expression `edge(node(src, getBBName(src)), node(dst, getBBName(dst)))`.  C++ leaves
the order in which the two arguments are evaluated to the compiler; `srcFirst` says whether
the label of `src` is resolved first. -/
def mkEdge (bbName : Nat → String) (srcFirst : Bool) (src dst : BlockPtr) (num : Nat) :
    edge × Nat :=
  if srcFirst then
    let a := getBBName bbName src num
    let b := getBBName bbName dst a.2
    (((src, a.1), (dst, b.1)), b.2)
  else
    let b := getBBName bbName dst num
    let a := getBBName bbName src b.2
    (((src, a.1), (dst, b.1)), a.2)

/-! ## The graph builder (lines 53-85 of `runOnModule`) -/

/-- Body of `for (Value *Op : I.operands())` (lines 69-73). -/
def visitOperand (M : IRModule) (srcFirst : Bool) (BB : BasicBlock) (s : DFGPass)
    (Op : Value) : DFGPass :=
  match Op with
  | Value.instruction parent =>
    if parent ≠ some BB.addr then
      let r := mkEdge M.bbName srcFirst parent (some BB.addr) s.num
      { s with dataFlowEdges := s.dataFlowEdges ++ [r.1], num := r.2 }
    else s
  | Value.other => s

/-- Body of `for (Instruction &I : BB)` (lines 67-75). -/
def visitInstruction (M : IRModule) (srcFirst : Bool) (BB : BasicBlock) (s : DFGPass)
    (I : Instruction) : DFGPass :=
  I.operands.foldl (visitOperand M srcFirst BB) s

/-- Body of the first `for (BasicBlock &BB : F)` (lines 63-76): the node of the block is
inserted into the node set of `F`, then the data-flow edges of its instructions are
collected. -/
def visitBlock (M : IRModule) (srcFirst : Bool) (F : IRFunction) (s : DFGPass)
    (BB : BasicBlock) : DFGPass :=
  let r := getBBName M.bbName (some BB.addr) s.num
  let s1 : DFGPass :=
    { s with
      functionNodes := mapAdjust F.addr (setInsert (some BB.addr, r.1)) s.functionNodes,
      num := r.2 }
  BB.insts.foldl (visitInstruction M srcFirst BB) s1

/-- Body of `for (BasicBlock* succ : successors(&BB))` (lines 81-83). -/
def visitSuccessor (M : IRModule) (srcFirst : Bool) (BB : BasicBlock) (s : DFGPass)
    (succ : BlockPtr) : DFGPass :=
  let r := mkEdge M.bbName srcFirst (some BB.addr) succ s.num
  { s with controlFlowEdges := s.controlFlowEdges ++ [r.1], num := r.2 }

/-- Body of the second `for (BasicBlock &BB : F)` (lines 79-84). -/
def visitSuccessors (M : IRModule) (srcFirst : Bool) (s : DFGPass) (BB : BasicBlock) :
    DFGPass :=
  BB.succs.foldl (visitSuccessor M srcFirst BB) s

/-- Body of `for (Function &F : M)` (lines 58-85). -/
def visitFunction (M : IRModule) (srcFirst : Bool) (s : DFGPass) (F : IRFunction) : DFGPass :=
  if F.isDeclaration then s
  else
    let s0 : DFGPass := { s with functionNodes := mapEnsure F.addr s.functionNodes }
    let s1 := F.blocks.foldl (visitBlock M srcFirst F) s0
    F.blocks.foldl (visitSuccessors M srcFirst) s1

/-- Lines 53-85: the three collections are cleared (`num` is not), then every function of
the module is visited. -/
def buildGraph (M : IRModule) (srcFirst : Bool) (s : DFGPass) : DFGPass :=
  M.functions.foldl (visitFunction M srcFirst)
    { s with dataFlowEdges := [], controlFlowEdges := [], functionNodes := [] }

/-! ## The serializer (lines 87-113 of `runOnModule`)

`file << x` appends `x` to the text of the stream.  Printing a `BasicBlock*` is done by the
host's stream library; its rendering is the parameter `showPtr`. -/

/-- Body of `for (node BBNode : basicBlockNodes)` (line 95).  The label is printed through
the stored view `BBNode.second`; for the node of a named block this is the name of the
block, for a node whose view dangles (`returnsDanglingView`) the characters printed are not
determined by the source, and `BBNode.2` stands for the string the view was built on. -/
def dumpNode (showPtr : BlockPtr → String) (file : String) (BBNode : node) : String :=
  file ++ "\tNode" ++ showPtr BBNode.1 ++ "[shape=record, label=\"" ++ BBNode.2 ++ "\"];\n"

/-- Body of `for (auto &FN : functionNodes)` (lines 90-97). -/
def dumpCluster (fnName : Nat → String) (showPtr : BlockPtr → String) (file : String)
    (FN : Nat × node_set) : String :=
  let file1 := file ++ "subgraph cluster_" ++ fnName FN.1 ++ " \x7b\n"
  let file2 := file1 ++ "label = \"" ++ fnName FN.1 ++ "\";\n"
  let file3 := FN.2.foldl (dumpNode showPtr) file2
  file3 ++ "\x7d\n"

/-- Body of the two edge loops (lines 103 and 109). -/
def dumpEdge (showPtr : BlockPtr → String) (file : String) (EI : edge) : String :=
  file ++ "\tNode" ++ showPtr EI.1.1 ++ " -> Node" ++ showPtr EI.2.1 ++ "\n"

/-- Lines 87-113: everything sent to `file`, in order. -/
def serialize (fnName : Nat → String) (showPtr : BlockPtr → String) (s : DFGPass) : String :=
  let file0 := "" ++ "digraph \"CDFG for Module\" \x7b\n"
  let file1 := s.functionNodes.foldl (dumpCluster fnName showPtr) file0
  let file2 := file1 ++ "edge [color=black]" ++ "\n"
  let file3 := s.controlFlowEdges.foldl (dumpEdge showPtr) file2
  let file4 := file3 ++ "edge [color=red]" ++ "\n"
  let file5 := s.dataFlowEdges.foldl (dumpEdge showPtr) file4
  file5 ++ "\x7d\n"

/-- The stream `raw_fd_ostream file("CDFG_BB.dot", error, ...)` of lines 47-50, as far as
the pass uses it: the text that has reached the file (`none` when the stream holds no file
descriptor), and whether an error is pending on the stream. -/
structure OutStream where
  file : Option String
  pendingError : Bool
  deriving DecidableEq, Repr

/-- The constructor of the stream: it creates or truncates the file and reports through
`error`; a non-zero error code means that no file was opened and the stream is left without
a file descriptor.  (The flags of line 50 are read from the local `F_None` of line 48, which
is declared and never assigned; a successful open is taken to leave an empty file, as the
library's flag value `F_None` does.) -/
def OutStream.create (openError : Nat) : OutStream :=
  { file := if openError = 0 then some "" else none, pendingError := false }

/-- The insertions `file << ...`: the text is appended to the file.  On a stream without a
file descriptor the write fails when the buffer is flushed, `file.close()` at the latest:
nothing is written anywhere and the stream records the error. -/
def OutStream.write (f : OutStream) (text : String) : OutStream :=
  match f.file with
  | some written => { f with file := some (written ++ text) }
  | none => { f with pendingError := true }

/-- The call `file.close()` (line 114): flushes and closes the file descriptor, which fails
on a stream that has none. -/
def OutStream.close (f : OutStream) : OutStream :=
  match f.file with
  | some _ => f
  | none => { f with pendingError := true }

/-- What one call of `runOnModule` leaves behind: the `bool` handed to the caller (`none`
when the call does not return), the members of the pass object when the call ends, and the
text that reached the artifact `CDFG_BB.dot` (`none` when the artifact could not be opened,
so that the stream has no file to write to). -/
structure RunResult where
  returned : Option Bool
  pass : DFGPass
  artifact : Option String
  deriving DecidableEq, Repr

/-- Source (lines 46-116): `bool runOnModule(Module &M)`.  `openError` is the value left in
`std::error_code error` by the constructor of `raw_fd_ostream` (`0` on success); the source
never reads it, so the same statements are executed whether or not the open succeeded:
lines 53-85 build the graph, lines 87-113 send the text to the stream, line 114 closes it.
At line 115 the destructor of the stream runs before the caller receives the value of
`return false;`.  It answers a pending error with `report_fatal_error`, which ends the
process: after a failed open the caller receives nothing.  The two diagnostic lines sent to
`errs()` are not part of the result. -/
def runOnModule (M : IRModule) (srcFirst : Bool) (showPtr : BlockPtr → String)
    (openError : Nat) (s : DFGPass) : RunResult :=
  let file := OutStream.create openError
  let s1 := buildGraph M srcFirst s
  let file1 := (file.write (serialize M.fnName showPtr s1)).close
  { returned := if file1.pendingError then none else some false,
    pass := s1,
    artifact := file1.file }

/-- The way the host's stream prints a pointer: `0x` and the address in lower-case
hexadecimal; the null pointer is address `0`. -/
def showHex : BlockPtr → String
  | none => "0x0"
  | some a => "0x" ++ String.mk (Nat.toDigits 16 a)

/-! ## Vocabulary of the specification -/

/-- The identity pair (source block, target block) of an edge, labels left out. -/
def edgeIds (e : edge) : BlockPtr × BlockPtr := (e.1.1, e.2.1)

/-- The owning blocks of the operands of `I` that are instruction results, one entry per
operand occurrence, in operand order. -/
def instructionParents (I : Instruction) : List BlockPtr :=
  I.operands.filterMap fun Op =>
    match Op with
    | Value.instruction parent => some parent
    | Value.other => none

/-- Every operand occurrence in block `BB` that is the result of an instruction, as the pair
(owning block of the operand, `BB`). -/
def blockOccurrences (BB : BasicBlock) : List (BlockPtr × BlockPtr) :=
  BB.insts.flatMap fun I => (instructionParents I).map fun C => (C, some BB.addr)

/-- The functions of the module that have a body. -/
def bodyFunctions (M : IRModule) : List IRFunction :=
  M.functions.filter fun F => !F.isDeclaration

/-- The blocks of the functions with a body, in visiting order. -/
def bodyBlocks (M : IRModule) : List BasicBlock :=
  (bodyFunctions M).flatMap fun F => F.blocks

/-- Every instruction-result operand occurrence of the module, as (owning block, using
block). -/
def operandOccurrences (M : IRModule) : List (BlockPtr × BlockPtr) :=
  (bodyBlocks M).flatMap blockOccurrences

/-- An occurrence whose owning block is not the using block. -/
def crossBlock (q : BlockPtr × BlockPtr) : Bool := decide (q.1 ≠ q.2)

/-- Every successor link of the module, as (block, successor). -/
def successorLinks (M : IRModule) : List (BlockPtr × BlockPtr) :=
  (bodyBlocks M).flatMap fun BB => BB.succs.map fun S => (some BB.addr, S)

/-- A pointer to a block whose name is empty. -/
def isAnonymous (bbName : Nat → String) (p : BlockPtr) : Bool :=
  match p with
  | none => false
  | some a => decide (bbName a = "")

/-- Number of anonymous endpoints of an identity pair (0, 1 or 2). -/
def anonymousEndpoints (bbName : Nat → String) (q : BlockPtr × BlockPtr) : Nat :=
  (if isAnonymous bbName q.1 then 1 else 0) + (if isAnonymous bbName q.2 then 1 else 0)

/-- The module with its declaration-only functions left out. -/
def withoutDeclarations (M : IRModule) : IRModule :=
  { M with functions := bodyFunctions M }

/-- Every block of a function with a body has an address of its own, as blocks in memory
do. -/
def distinctBlocks (M : IRModule) : Prop :=
  ((bodyBlocks M).map fun BB => BB.addr).Nodup

instance (M : IRModule) : Decidable (distinctBlocks M) :=
  inferInstanceAs (Decidable (List.Nodup _))

/-- Every node stored in some node set of the function map. -/
def storedNodes (s : DFGPass) : List node :=
  s.functionNodes.flatMap Prod.snd

/-- The text of a graph without clusters and without edges. -/
def emptyGraphText : String :=
  "digraph \"CDFG for Module\" \x7b\nedge [color=black]\nedge [color=red]\n\x7d\n"

/-! ## Layout of the output text, line by line -/

/-- The line that declares a node of a cluster: a tab, `Node<block-id>`, and the label. -/
def nodeLine (showPtr : BlockPtr → String) (n : node) : String :=
  "\tNode" ++ showPtr n.1 ++ "[shape=record, label=\"" ++ n.2 ++ "\"];\n"

/-- The line of an edge: a tab and `Node<src> -> Node<dst>`. -/
def edgeLine (showPtr : BlockPtr → String) (q : BlockPtr × BlockPtr) : String :=
  "\tNode" ++ showPtr q.1 ++ " -> Node" ++ showPtr q.2 ++ "\n"

/-- The lines of the cluster of one function: opening line, label line, one node line per
node in set order, closing line. -/
def clusterLines (fnName : Nat → String) (showPtr : BlockPtr → String)
    (FN : Nat × node_set) : List String :=
  ["subgraph cluster_" ++ fnName FN.1 ++ " \x7b\n", "label = \"" ++ fnName FN.1 ++ "\";\n"]
    ++ FN.2.map (nodeLine showPtr) ++ ["\x7d\n"]

/-- The lines of the whole text: header, the clusters in the key order of the map, the black
edge header and one line per control-flow edge, the red edge header and one line per
data-flow edge, the closing line. -/
def layoutLines (fnName : Nat → String) (showPtr : BlockPtr → String)
    (functionNodes : List (Nat × node_set)) (controlFlowEdges dataFlowEdges : edge_list) :
    List String :=
  ["digraph \"CDFG for Module\" \x7b\n"]
    ++ functionNodes.flatMap (clusterLines fnName showPtr)
    ++ ["edge [color=black]\n"]
    ++ controlFlowEdges.map (fun e => edgeLine showPtr (edgeIds e))
    ++ ["edge [color=red]\n"]
    ++ dataFlowEdges.map (fun e => edgeLine showPtr (edgeIds e))
    ++ ["\x7d\n"]

/-! ## Auxiliary notions for the proofs -/

/-- The identity pairs one operand adds to the data-flow edge list: the pair (owning block,
using block) when the operand is an instruction result owned by another block. -/
def operandPairs (BB : BasicBlock) (Op : Value) : List (BlockPtr × BlockPtr) :=
  match Op with
  | Value.instruction parent => if parent ≠ some BB.addr then [(parent, some BB.addr)] else []
  | Value.other => []

/-- The cross-block identity pairs of a block, instruction by instruction and operand by
operand. -/
def blockPairs (BB : BasicBlock) : List (BlockPtr × BlockPtr) :=
  BB.insts.flatMap fun I => I.operands.flatMap (operandPairs BB)

/-- The successor links of a block as identity pairs. -/
def blockLinks (BB : BasicBlock) : List (BlockPtr × BlockPtr) :=
  BB.succs.map fun S => (some BB.addr, S)

/-- The statement `edge(node(C, getBBName(C)), node(B, getBBName(B)))` appended to the
data-flow edge list, for an identity pair `q = (C, B)`. -/
def addDataEdge (bbName : Nat → String) (srcFirst : Bool) (s : DFGPass)
    (q : BlockPtr × BlockPtr) : DFGPass :=
  { s with
    dataFlowEdges := s.dataFlowEdges ++ [(mkEdge bbName srcFirst q.1 q.2 s.num).1],
    num := (mkEdge bbName srcFirst q.1 q.2 s.num).2 }

/-- The same statement appended to the control-flow edge list. -/
def addControlEdge (bbName : Nat → String) (srcFirst : Bool) (s : DFGPass)
    (q : BlockPtr × BlockPtr) : DFGPass :=
  { s with
    controlFlowEdges := s.controlFlowEdges ++ [(mkEdge bbName srcFirst q.1 q.2 s.num).1],
    num := (mkEdge bbName srcFirst q.1 q.2 s.num).2 }

/-- The stored nodes of named blocks carry the names of their blocks. -/
def namedStored (bbName : Nat → String) (s : DFGPass) : Prop :=
  ∀ n ∈ storedNodes s, ∀ a, n.1 = some a → bbName a ≠ "" → n.2 = bbName a

/-- The sequences that stand for the `std::map` and its `std::set`s are in the order of
the containers: keys strictly increasing, and every node set strictly increasing for the
`operator<` of nodes. -/
def containersOrdered (s : DFGPass) : Prop :=
  (s.functionNodes.map Prod.fst).Pairwise (fun a b => a < b)
  ∧ ∀ FN ∈ s.functionNodes, FN.2.Pairwise (fun x y => nodeLt x y = true)

/-! ## Concrete modules -/

/-- A function at address 4096 with two blocks named `entry` (address 16) and `exit`
(address 32): `entry` branches to `exit`, and one instruction of `exit` uses a constant, a
value computed in `entry` and a value computed in `exit` itself. -/
def entryExitFunction : IRFunction :=
  { addr := 4096, isDeclaration := false,
    blocks :=
      [ { addr := 16, insts := [Instruction.mk [Value.other]], succs := [some 32] },
        { addr := 32,
          insts := [Instruction.mk
            [Value.other, Value.instruction (some 16), Value.instruction (some 32)]],
          succs := [] } ] }

/-- The module of `entryExitFunction`, which it names `main`, preceded by the declaration of
a function `puts`. -/
def entryExitModule : IRModule :=
  { functions := [ { addr := 2048, isDeclaration := true, blocks := [] }, entryExitFunction ],
    bbName := fun a => if a = 16 then "entry" else if a = 32 then "exit" else "",
    fnName := fun a => if a = 4096 then "main" else "puts" }

/-- A module with one function of two anonymous blocks, the first branching to the second;
no instruction has an operand. -/
def anonymousPairModule : IRModule :=
  { functions :=
      [ { addr := 4096, isDeclaration := false,
          blocks :=
            [ { addr := 16, insts := [], succs := [some 32] },
              { addr := 32, insts := [], succs := [] } ] } ],
    bbName := fun _ => "",
    fnName := fun _ => "f" }

/-- A module without functions. -/
def emptyModule : IRModule :=
  { functions := [], bbName := fun _ => "", fnName := fun _ => "" }

/-- Two functions at addresses 4096 and 8192, each with one block named `entry` (addresses
16 and 32). -/
def twoEntriesModule : IRModule :=
  { functions :=
      [ { addr := 4096, isDeclaration := false,
          blocks := [ { addr := 16, insts := [], succs := [] } ] },
        { addr := 8192, isDeclaration := false,
          blocks := [ { addr := 32, insts := [], succs := [] } ] } ],
    bbName := fun _ => "entry",
    fnName := fun a => if a = 4096 then "f" else "g" }

/-- One function of three anonymous blocks (addresses 16, 32, 48) in a chain
16 -> 32 -> 48; one instruction of the second block uses a value computed in the first. -/
def threeAnonymousModule : IRModule :=
  { functions :=
      [ { addr := 4096, isDeclaration := false,
          blocks :=
            [ { addr := 16, insts := [], succs := [some 32] },
              { addr := 32, insts := [Instruction.mk [Value.instruction (some 16)]],
                succs := [some 48] },
              { addr := 48, insts := [], succs := [] } ] } ],
    bbName := fun _ => "",
    fnName := fun _ => "f" }

/-- A declaration and one function of three anonymous blocks (addresses 16, 32, 48) in a
chain 16 -> 32 -> 48; only the third block has a cross-block operand, a value computed in
the first. -/
def threeAnonymousTailModule : IRModule :=
  { functions :=
      [ { addr := 2048, isDeclaration := true, blocks := [] },
        { addr := 4096, isDeclaration := false,
          blocks :=
            [ { addr := 16, insts := [Instruction.mk [Value.other]], succs := [some 32] },
              { addr := 32, insts := [Instruction.mk [Value.instruction (some 32)]],
                succs := [some 48] },
              { addr := 48, insts := [Instruction.mk [Value.instruction (some 16)]],
                succs := [] } ] } ],
    bbName := fun _ => "",
    fnName := fun _ => "f" }

/-! ## Node sets taken alone, and sequences of calls -/

/-- The values of `num` found by a sequence of calls of `getBBName` on the pointers `ps`,
the counter being handed from each call to the next: the `i`-th entry is the value from
which the `i`-th call synthesizes its label when its block is anonymous. -/
def counterSequence (bbName : Nat → String) : List BlockPtr → Nat → List Nat
  | [], _ => []
  | p :: ps, num => num :: counterSequence bbName ps (getBBName bbName p num).2

/-- The node set stored under the key `k` of the function map (`functionNodes.find(k)`),
empty when the map has no such key. -/
def nodeSetOf (k : Nat) : List (Nat × node_set) → node_set
  | [] => []
  | (k', v) :: rest => if k' = k then v else nodeSetOf k rest

/-- Every function with a body has an address of its own, as functions in memory do. -/
def distinctFunctions (M : IRModule) : Prop :=
  ((bodyFunctions M).map fun F => F.addr).Nodup

instance (M : IRModule) : Decidable (distinctFunctions M) :=
  inferInstanceAs (Decidable (List.Nodup _))

/-- References stay inside the function: every successor of a block, and every owning block
of an instruction operand of a block, is a block of the same function. -/
def closedReferences (M : IRModule) : Prop :=
  ∀ F ∈ bodyFunctions M, ∀ B ∈ F.blocks,
    (∀ S ∈ B.succs, ∃ B' ∈ F.blocks, S = some B'.addr)
    ∧ (∀ q ∈ blockOccurrences B, ∃ B' ∈ F.blocks, q.1 = some B'.addr)

/-- The label of every edge endpoint is a result of `getBBName` on the endpoint. -/
def edgesResolved (bbName : Nat → String) (s : DFGPass) : Prop :=
  ∀ e ∈ s.dataFlowEdges ++ s.controlFlowEdges, ∀ n : node, (n = e.1 ∨ n = e.2) →
    ∃ k, n.2 = (getBBName bbName n.1 k).1

/-- The state of the pass at the moment the node of a block is about to be inserted: the
functions `pre` have been visited, the entry of `F` exists, and the blocks `bpre` of `F`
have gone through the first loop. -/
def stateAtInsertion (M : IRModule) (srcFirst : Bool) (s : DFGPass) (pre : List IRFunction)
    (F : IRFunction) (bpre : List BasicBlock) : DFGPass :=
  let sPre := pre.foldl (visitFunction M srcFirst)
    { s with dataFlowEdges := [], controlFlowEdges := [], functionNodes := [] }
  bpre.foldl (visitBlock M srcFirst F)
    { sPre with functionNodes := mapEnsure F.addr sPre.functionNodes }

/-! ## The run and its output stream -/

theorem runOnModule_eq (M : IRModule) (o : Bool) (showPtr : BlockPtr → String)
    (openError : Nat) (s : DFGPass) :
    runOnModule M o showPtr openError s
      = { returned := if openError = 0 then some false else none,
          pass := buildGraph M o s,
          artifact :=
            if openError = 0 then some (serialize M.fnName showPtr (buildGraph M o s))
            else none } := by
  have hempty : ∀ t : String, "" ++ t = t := fun t => by
    apply String.ext
    simp
  by_cases h : openError = 0
  · simp [runOnModule, OutStream.create, OutStream.write, OutStream.close, h, hempty]
  · simp [runOnModule, OutStream.create, OutStream.write, OutStream.close, h]

/-! ## Folds: how a component of the state moves along a loop -/

theorem foldl_keeps {σ α β : Type} (f : σ → α → σ) (g : σ → β)
    (step : ∀ s x, g (f s x) = g s) (xs : List α) (s : σ) :
    g (xs.foldl f s) = g s := by
  induction xs generalizing s with
  | nil => rfl
  | cons x xs ih => rw [List.foldl_cons, ih, step]

theorem foldl_appends {σ α β : Type} (f : σ → α → σ) (g : σ → List β) (h : α → List β)
    (step : ∀ s x, g (f s x) = g s ++ h x) (xs : List α) (s : σ) :
    g (xs.foldl f s) = g s ++ xs.flatMap h := by
  induction xs generalizing s with
  | nil => simp
  | cons x xs ih => rw [List.foldl_cons, ih, step, List.flatMap_cons, List.append_assoc]

theorem foldl_adds {σ α : Type} (f : σ → α → σ) (g : σ → Nat) (h : α → Nat)
    (step : ∀ s x, g (f s x) = g s + h x) (xs : List α) (s : σ) :
    g (xs.foldl f s) = g s + (xs.map h).sum := by
  induction xs generalizing s with
  | nil => simp
  | cons x xs ih => rw [List.foldl_cons, ih, step, List.map_cons, List.sum_cons, Nat.add_assoc]

/-! ## `getBBName` and `mkEdge` -/

theorem getBBName_num (bbName : Nat → String) (p : BlockPtr) (n : Nat) :
    (getBBName bbName p n).2 = n + (if isAnonymous bbName p then 1 else 0) := by
  cases p with
  | none => simp [getBBName, isAnonymous]
  | some a =>
    by_cases h : bbName a = "" <;> simp [getBBName, isAnonymous, h]

theorem mkEdge_ids (bbName : Nat → String) (o : Bool) (src dst : BlockPtr) (n : Nat) :
    edgeIds (mkEdge bbName o src dst n).1 = (src, dst) := by
  cases o <;> rfl

theorem mkEdge_num (bbName : Nat → String) (o : Bool) (src dst : BlockPtr) (n : Nat) :
    (mkEdge bbName o src dst n).2 = n + anonymousEndpoints bbName (src, dst) := by
  cases o <;> simp only [mkEdge, getBBName_num, anonymousEndpoints] <;> simp <;> omega

/-! ## Data-flow edges: identity pairs -/

theorem visitOperand_data (M : IRModule) (o : Bool) (BB : BasicBlock) (s : DFGPass)
    (Op : Value) :
    (visitOperand M o BB s Op).dataFlowEdges.map edgeIds
      = s.dataFlowEdges.map edgeIds ++ operandPairs BB Op := by
  cases Op with
  | other => simp [visitOperand, operandPairs]
  | instruction parent =>
    by_cases h : parent = some BB.addr
    · simp [visitOperand, operandPairs, h]
    · simp [visitOperand, operandPairs, h, mkEdge_ids]

theorem visitOperand_control (M : IRModule) (o : Bool) (BB : BasicBlock) (s : DFGPass)
    (Op : Value) : (visitOperand M o BB s Op).controlFlowEdges = s.controlFlowEdges := by
  cases Op with
  | other => rfl
  | instruction parent =>
    by_cases h : parent = some BB.addr <;> simp [visitOperand, h]

theorem visitOperand_nodes (M : IRModule) (o : Bool) (BB : BasicBlock) (s : DFGPass)
    (Op : Value) : (visitOperand M o BB s Op).functionNodes = s.functionNodes := by
  cases Op with
  | other => rfl
  | instruction parent =>
    by_cases h : parent = some BB.addr <;> simp [visitOperand, h]

theorem visitOperand_num (M : IRModule) (o : Bool) (BB : BasicBlock) (s : DFGPass)
    (Op : Value) :
    (visitOperand M o BB s Op).num
      = s.num + ((operandPairs BB Op).map (anonymousEndpoints M.bbName)).sum := by
  cases Op with
  | other => simp [visitOperand, operandPairs]
  | instruction parent =>
    by_cases h : parent = some BB.addr
    · simp [visitOperand, operandPairs, h]
    · simp [visitOperand, operandPairs, h, mkEdge_num]

theorem blockPairs_eq (BB : BasicBlock) :
    blockPairs BB = (blockOccurrences BB).filter crossBlock := by
  unfold blockPairs blockOccurrences
  rw [List.filter_flatMap]
  congr 1
  funext I
  unfold instructionParents
  induction I.operands with
  | nil => rfl
  | cons Op ops ih =>
    rw [List.flatMap_cons, ih]
    cases Op with
    | other => simp [operandPairs]
    | instruction parent =>
      by_cases h : parent = some BB.addr
      · simp [operandPairs, h, crossBlock]
      · simp [operandPairs, h, crossBlock]

theorem visitInstruction_data (M : IRModule) (o : Bool) (BB : BasicBlock) (s : DFGPass)
    (I : Instruction) :
    (visitInstruction M o BB s I).dataFlowEdges.map edgeIds
      = s.dataFlowEdges.map edgeIds ++ I.operands.flatMap (operandPairs BB) :=
  foldl_appends (visitOperand M o BB) (fun s => s.dataFlowEdges.map edgeIds) (operandPairs BB)
    (visitOperand_data M o BB) I.operands s

theorem visitInstruction_control (M : IRModule) (o : Bool) (BB : BasicBlock) (s : DFGPass)
    (I : Instruction) : (visitInstruction M o BB s I).controlFlowEdges = s.controlFlowEdges :=
  foldl_keeps (visitOperand M o BB) (fun s => s.controlFlowEdges)
    (visitOperand_control M o BB) I.operands s

theorem visitInstruction_nodes (M : IRModule) (o : Bool) (BB : BasicBlock) (s : DFGPass)
    (I : Instruction) : (visitInstruction M o BB s I).functionNodes = s.functionNodes :=
  foldl_keeps (visitOperand M o BB) (fun s => s.functionNodes)
    (visitOperand_nodes M o BB) I.operands s

theorem sum_map_flatMap {α β : Type} (w : β → Nat) (h : α → List β) (xs : List α) :
    ((xs.flatMap h).map w).sum = (xs.map fun x => ((h x).map w).sum).sum := by
  induction xs with
  | nil => rfl
  | cons x xs ih => simp [List.flatMap_cons, ih]

theorem visitInstruction_num (M : IRModule) (o : Bool) (BB : BasicBlock) (s : DFGPass)
    (I : Instruction) :
    (visitInstruction M o BB s I).num
      = s.num + ((I.operands.flatMap (operandPairs BB)).map (anonymousEndpoints M.bbName)).sum := by
  rw [sum_map_flatMap]
  exact foldl_adds (visitOperand M o BB) (fun s => s.num) _ (visitOperand_num M o BB)
    I.operands s

theorem visitBlock_data (M : IRModule) (o : Bool) (F : IRFunction) (s : DFGPass)
    (BB : BasicBlock) :
    (visitBlock M o F s BB).dataFlowEdges.map edgeIds
      = s.dataFlowEdges.map edgeIds ++ blockPairs BB := by
  unfold visitBlock blockPairs
  exact foldl_appends (visitInstruction M o BB) (fun s => s.dataFlowEdges.map edgeIds) _
    (visitInstruction_data M o BB) BB.insts _

theorem visitBlock_control (M : IRModule) (o : Bool) (F : IRFunction) (s : DFGPass)
    (BB : BasicBlock) : (visitBlock M o F s BB).controlFlowEdges = s.controlFlowEdges := by
  unfold visitBlock
  exact foldl_keeps (visitInstruction M o BB) (fun s => s.controlFlowEdges)
    (visitInstruction_control M o BB) BB.insts _

theorem visitBlock_nodes (M : IRModule) (o : Bool) (F : IRFunction) (s : DFGPass)
    (BB : BasicBlock) :
    (visitBlock M o F s BB).functionNodes
      = mapAdjust F.addr (setInsert (some BB.addr, (getBBName M.bbName (some BB.addr) s.num).1))
          s.functionNodes := by
  unfold visitBlock
  exact foldl_keeps (visitInstruction M o BB) (fun s => s.functionNodes)
    (visitInstruction_nodes M o BB) BB.insts _

theorem visitBlock_num (M : IRModule) (o : Bool) (F : IRFunction) (s : DFGPass)
    (BB : BasicBlock) :
    (visitBlock M o F s BB).num
      = s.num + (if isAnonymous M.bbName (some BB.addr) then 1 else 0)
          + ((blockPairs BB).map (anonymousEndpoints M.bbName)).sum := by
  unfold visitBlock blockPairs
  rw [sum_map_flatMap]
  have h := foldl_adds (visitInstruction M o BB) (fun s => s.num) _
    (visitInstruction_num M o BB) BB.insts
    { s with
      functionNodes :=
        mapAdjust F.addr (setInsert (some BB.addr, (getBBName M.bbName (some BB.addr) s.num).1))
          s.functionNodes,
      num := (getBBName M.bbName (some BB.addr) s.num).2 }
  simp only [getBBName_num] at h
  simpa only [getBBName_num] using h

/-! ## Control-flow edges: identity pairs -/

theorem visitSuccessor_control (M : IRModule) (o : Bool) (BB : BasicBlock) (s : DFGPass)
    (succ : BlockPtr) :
    (visitSuccessor M o BB s succ).controlFlowEdges.map edgeIds
      = s.controlFlowEdges.map edgeIds ++ [(some BB.addr, succ)] := by
  simp [visitSuccessor, mkEdge_ids]

theorem visitSuccessor_num (M : IRModule) (o : Bool) (BB : BasicBlock) (s : DFGPass)
    (succ : BlockPtr) :
    (visitSuccessor M o BB s succ).num
      = s.num + anonymousEndpoints M.bbName (some BB.addr, succ) := by
  simp [visitSuccessor, mkEdge_num]

theorem visitSuccessors_control (M : IRModule) (o : Bool) (s : DFGPass) (BB : BasicBlock) :
    (visitSuccessors M o s BB).controlFlowEdges.map edgeIds
      = s.controlFlowEdges.map edgeIds ++ blockLinks BB := by
  unfold visitSuccessors blockLinks
  have h := foldl_appends (visitSuccessor M o BB) (fun s => s.controlFlowEdges.map edgeIds)
    (fun succ => [(some BB.addr, succ)]) (visitSuccessor_control M o BB) BB.succs s
  rw [h]
  congr 1
  induction BB.succs with
  | nil => rfl
  | cons x xs ih => simp [List.flatMap_cons, ih]

theorem visitSuccessors_data (M : IRModule) (o : Bool) (s : DFGPass) (BB : BasicBlock) :
    (visitSuccessors M o s BB).dataFlowEdges = s.dataFlowEdges :=
  foldl_keeps (visitSuccessor M o BB) (fun s => s.dataFlowEdges) (fun _ _ => rfl) BB.succs s

theorem visitSuccessors_nodes (M : IRModule) (o : Bool) (s : DFGPass) (BB : BasicBlock) :
    (visitSuccessors M o s BB).functionNodes = s.functionNodes :=
  foldl_keeps (visitSuccessor M o BB) (fun s => s.functionNodes) (fun _ _ => rfl) BB.succs s

theorem visitSuccessors_num (M : IRModule) (o : Bool) (s : DFGPass) (BB : BasicBlock) :
    (visitSuccessors M o s BB).num
      = s.num + ((blockLinks BB).map (anonymousEndpoints M.bbName)).sum := by
  unfold visitSuccessors blockLinks
  rw [List.map_map]
  exact foldl_adds (visitSuccessor M o BB) (fun s => s.num) _ (visitSuccessor_num M o BB)
    BB.succs s

/-! ## One function -/

theorem visitFunction_declaration (M : IRModule) (o : Bool) (s : DFGPass) (F : IRFunction)
    (h : F.isDeclaration = true) : visitFunction M o s F = s := by
  simp [visitFunction, h]

theorem visitFunction_data (M : IRModule) (o : Bool) (s : DFGPass) (F : IRFunction)
    (h : F.isDeclaration = false) :
    (visitFunction M o s F).dataFlowEdges.map edgeIds
      = s.dataFlowEdges.map edgeIds ++ F.blocks.flatMap blockPairs := by
  simp only [visitFunction, h, Bool.false_eq_true, if_false]
  rw [foldl_keeps (visitSuccessors M o) (fun s => s.dataFlowEdges.map edgeIds)
    (fun s BB => by simp only [visitSuccessors_data])]
  exact foldl_appends (visitBlock M o F) (fun s => s.dataFlowEdges.map edgeIds) blockPairs
    (visitBlock_data M o F) F.blocks _

theorem visitFunction_control (M : IRModule) (o : Bool) (s : DFGPass) (F : IRFunction)
    (h : F.isDeclaration = false) :
    (visitFunction M o s F).controlFlowEdges.map edgeIds
      = s.controlFlowEdges.map edgeIds ++ F.blocks.flatMap blockLinks := by
  simp only [visitFunction, h, Bool.false_eq_true, if_false]
  rw [foldl_appends (visitSuccessors M o) (fun s => s.controlFlowEdges.map edgeIds) blockLinks
    (visitSuccessors_control M o)]
  congr 2
  exact foldl_keeps (visitBlock M o F) (fun s => s.controlFlowEdges)
    (visitBlock_control M o F) F.blocks _

theorem visitFunction_num (M : IRModule) (o : Bool) (s : DFGPass) (F : IRFunction)
    (h : F.isDeclaration = false) :
    (visitFunction M o s F).num
      = s.num + (F.blocks.filter fun BB => isAnonymous M.bbName (some BB.addr)).length
          + ((F.blocks.flatMap blockPairs).map (anonymousEndpoints M.bbName)).sum
          + ((F.blocks.flatMap blockLinks).map (anonymousEndpoints M.bbName)).sum := by
  simp only [visitFunction, h, Bool.false_eq_true, if_false]
  rw [sum_map_flatMap, sum_map_flatMap]
  rw [foldl_adds (visitSuccessors M o) (fun s => s.num) _ (visitSuccessors_num M o)]
  rw [foldl_adds (visitBlock M o F) (fun s => s.num)
    (fun BB => (if isAnonymous M.bbName (some BB.addr) then 1 else 0)
      + ((blockPairs BB).map (anonymousEndpoints M.bbName)).sum)
    (fun s BB => by show (visitBlock M o F s BB).num = _; rw [visitBlock_num, Nat.add_assoc])]
  have hsplit : ∀ bs : List BasicBlock,
      (bs.map fun BB => (if isAnonymous M.bbName (some BB.addr) then 1 else 0)
        + ((blockPairs BB).map (anonymousEndpoints M.bbName)).sum).sum
      = (bs.filter fun BB => isAnonymous M.bbName (some BB.addr)).length
        + (bs.map fun BB => ((blockPairs BB).map (anonymousEndpoints M.bbName)).sum).sum := by
    intro bs
    induction bs with
    | nil => rfl
    | cons b bs ih =>
      by_cases hb : isAnonymous M.bbName (some b.addr) = true
      · simp [List.filter_cons, hb, ih]; omega
      · simp [List.filter_cons, hb, ih]; omega
  rw [hsplit]
  simp only []
  omega

/-! ## The whole module -/

theorem foldl_visitFunction_filter (M : IRModule) (o : Bool) (fs : List IRFunction)
    (s : DFGPass) :
    fs.foldl (visitFunction M o) s
      = (fs.filter fun F => !F.isDeclaration).foldl (visitFunction M o) s := by
  induction fs generalizing s with
  | nil => rfl
  | cons F fs ih =>
    by_cases h : F.isDeclaration = true
    · simp [List.filter_cons, h, visitFunction_declaration, ih]
    · simp only [Bool.not_eq_true] at h
      simp [List.filter_cons, h, ih]

theorem buildGraph_withoutDeclarations (M : IRModule) (o : Bool) (s : DFGPass) :
    buildGraph M o s = buildGraph (withoutDeclarations M) o s := by
  unfold buildGraph withoutDeclarations bodyFunctions
  simp only [List.filter_filter, Bool.and_self]
  exact foldl_visitFunction_filter M o M.functions _

theorem mem_bodyFunctions {M : IRModule} {F : IRFunction} (h : F ∈ bodyFunctions M) :
    F.isDeclaration = false := by
  unfold bodyFunctions at h
  simpa using (List.mem_filter.mp h).2

theorem foldl_body_appends (M : IRModule) (o : Bool) (g : DFGPass → List (BlockPtr × BlockPtr))
    (h : BasicBlock → List (BlockPtr × BlockPtr))
    (step : ∀ s F, F.isDeclaration = false →
      g (visitFunction M o s F) = g s ++ F.blocks.flatMap h)
    (fs : List IRFunction) (hfs : ∀ F ∈ fs, F.isDeclaration = false) (s : DFGPass) :
    g (fs.foldl (visitFunction M o) s) = g s ++ (fs.flatMap fun F => F.blocks).flatMap h := by
  induction fs generalizing s with
  | nil => simp
  | cons F fs ih =>
    rw [List.foldl_cons, ih (fun G hG => hfs G (List.mem_cons_of_mem _ hG)),
      step s F (hfs F (List.mem_cons_self _ _))]
    simp [List.flatMap_cons, List.flatMap_append]

theorem buildGraph_data_pairs (M : IRModule) (o : Bool) (s : DFGPass) :
    (buildGraph M o s).dataFlowEdges.map edgeIds = (bodyBlocks M).flatMap blockPairs := by
  unfold buildGraph
  rw [foldl_visitFunction_filter]
  have h := foldl_body_appends M o (fun s => s.dataFlowEdges.map edgeIds) blockPairs
    (fun s F hF => visitFunction_data M o s F hF) (bodyFunctions M)
    (fun F hF => mem_bodyFunctions hF)
    { s with dataFlowEdges := [], controlFlowEdges := [], functionNodes := [] }
  simpa [bodyBlocks, bodyFunctions] using h

theorem buildGraph_data (M : IRModule) (o : Bool) (s : DFGPass) :
    (buildGraph M o s).dataFlowEdges.map edgeIds
      = (operandOccurrences M).filter crossBlock := by
  rw [buildGraph_data_pairs, operandOccurrences, List.filter_flatMap]
  congr 1
  funext BB
  exact blockPairs_eq BB

theorem buildGraph_control (M : IRModule) (o : Bool) (s : DFGPass) :
    (buildGraph M o s).controlFlowEdges.map edgeIds = successorLinks M := by
  unfold buildGraph
  rw [foldl_visitFunction_filter]
  have h := foldl_body_appends M o (fun s => s.controlFlowEdges.map edgeIds) blockLinks
    (fun s F hF => visitFunction_control M o s F hF) (bodyFunctions M)
    (fun F hF => mem_bodyFunctions hF)
    { s with dataFlowEdges := [], controlFlowEdges := [], functionNodes := [] }
  simpa [bodyBlocks, bodyFunctions, successorLinks, blockLinks] using h

theorem foldl_body_num (M : IRModule) (o : Bool) (fs : List IRFunction)
    (hfs : ∀ F ∈ fs, F.isDeclaration = false) (s : DFGPass) :
    (fs.foldl (visitFunction M o) s).num
      = s.num
        + ((fs.flatMap fun F => F.blocks).filter fun BB =>
            isAnonymous M.bbName (some BB.addr)).length
        + ((((fs.flatMap fun F => F.blocks).flatMap blockPairs).map
            (anonymousEndpoints M.bbName)).sum
        + (((fs.flatMap fun F => F.blocks).flatMap blockLinks).map
            (anonymousEndpoints M.bbName)).sum) := by
  induction fs generalizing s with
  | nil => simp
  | cons F fs ih =>
    rw [List.foldl_cons, ih (fun G hG => hfs G (List.mem_cons_of_mem _ hG)),
      visitFunction_num M o s F (hfs F (List.mem_cons_self _ _))]
    simp only [List.flatMap_cons, List.flatMap_append, List.filter_append, List.length_append,
      List.map_append, List.sum_append]
    omega

theorem buildGraph_num (M : IRModule) (o : Bool) (s : DFGPass) :
    (buildGraph M o s).num
      = s.num
        + ((bodyBlocks M).filter fun BB => isAnonymous M.bbName (some BB.addr)).length
        + ((((operandOccurrences M).filter crossBlock).map (anonymousEndpoints M.bbName)).sum
        + ((successorLinks M).map (anonymousEndpoints M.bbName)).sum) := by
  rw [← buildGraph_data M o s, buildGraph_data_pairs]
  unfold buildGraph
  rw [foldl_visitFunction_filter]
  have h := foldl_body_num M o (bodyFunctions M) (fun F hF => mem_bodyFunctions hF)
    { s with dataFlowEdges := [], controlFlowEdges := [], functionNodes := [] }
  simpa [bodyBlocks, bodyFunctions, successorLinks, blockLinks] using h

/-! ## Keys of the function map -/

theorem mapAdjust_keys (k : Nat) (f : node_set → node_set) (m : List (Nat × node_set)) :
    (mapAdjust k f m).map Prod.fst = m.map Prod.fst := by
  induction m with
  | nil => rfl
  | cons e m ih =>
    obtain ⟨k', v⟩ := e
    by_cases h : k' = k <;> simp [mapAdjust, h, ih]

theorem mem_mapEnsure_keys (k k' : Nat) (m : List (Nat × node_set)) :
    k' ∈ (mapEnsure k m).map Prod.fst ↔ k' = k ∨ k' ∈ m.map Prod.fst := by
  induction m with
  | nil => simp [mapEnsure]
  | cons e m ih =>
    obtain ⟨k1, v⟩ := e
    by_cases h1 : k < k1
    · simp [mapEnsure, h1]
    · by_cases h2 : k1 < k
      · simp only [mapEnsure, h1, h2, if_true, if_false, List.map_cons, List.mem_cons, ih]
        tauto
      · have : k = k1 := by omega
        subst this
        simp [mapEnsure]

theorem visitFunction_keys (M : IRModule) (o : Bool) (s : DFGPass) (F : IRFunction)
    (h : F.isDeclaration = false) (k : Nat) :
    k ∈ (visitFunction M o s F).functionNodes.map Prod.fst
      ↔ k = F.addr ∨ k ∈ s.functionNodes.map Prod.fst := by
  simp only [visitFunction, h, Bool.false_eq_true, if_false]
  rw [foldl_keeps (visitSuccessors M o) (fun s => s.functionNodes.map Prod.fst)
    (fun s BB => by simp only [visitSuccessors_nodes])]
  rw [foldl_keeps (visitBlock M o F) (fun s => s.functionNodes.map Prod.fst)
    (fun s BB => by simp only [visitBlock_nodes, mapAdjust_keys])]
  exact mem_mapEnsure_keys F.addr k s.functionNodes

theorem foldl_visitFunction_keys (M : IRModule) (o : Bool) (fs : List IRFunction)
    (s : DFGPass) (k : Nat) :
    k ∈ (fs.foldl (visitFunction M o) s).functionNodes.map Prod.fst
      ↔ (∃ F ∈ fs, F.isDeclaration = false ∧ F.addr = k) ∨ k ∈ s.functionNodes.map Prod.fst := by
  induction fs generalizing s with
  | nil => simp
  | cons F fs ih =>
    rw [List.foldl_cons, ih]
    by_cases h : F.isDeclaration = true
    · rw [visitFunction_declaration M o s F h]
      simp [h]
    · simp only [Bool.not_eq_true] at h
      rw [visitFunction_keys M o s F h]
      simp only [List.mem_cons, exists_eq_or_imp, h, true_and]
      constructor
      · rintro (h1 | h1 | h1)
        · exact Or.inl (Or.inr h1)
        · exact Or.inl (Or.inl h1.symm)
        · exact Or.inr h1
      · rintro ((h1 | h1) | h1)
        · exact Or.inr (Or.inl h1.symm)
        · exact Or.inl h1
        · exact Or.inr (Or.inr h1)

theorem buildGraph_keys (M : IRModule) (o : Bool) (s : DFGPass) (k : Nat) :
    k ∈ (buildGraph M o s).functionNodes.map Prod.fst
      ↔ ∃ F ∈ M.functions, F.isDeclaration = false ∧ F.addr = k := by
  unfold buildGraph
  rw [foldl_visitFunction_keys]
  simp

/-! ## Counting and filtering identity pairs -/

theorem count_filter_crossBlock (l : List (BlockPtr × BlockPtr)) (C B : BlockPtr) :
    (l.filter crossBlock).count (C, B) = if C ≠ B then l.count (C, B) else 0 := by
  by_cases h : C = B
  · subst h
    simp only [ne_eq, not_true_eq_false, if_false]
    apply List.count_eq_zero_of_not_mem
    simp [List.mem_filter, crossBlock]
  · simp only [ne_eq, h, not_false_eq_true, if_true]
    exact List.count_filter (by simp [crossBlock, h])

theorem filter_addr_of_nodup (bs : List BasicBlock) (hnd : (bs.map fun BB => BB.addr).Nodup)
    (B : BasicBlock) (hB : B ∈ bs) :
    bs.filter (fun BB => decide (BB.addr = B.addr)) = [B] := by
  induction bs with
  | nil => cases hB
  | cons b bs ih =>
    rw [List.map_cons, List.nodup_cons] at hnd
    rcases List.mem_cons.mp hB with h | h
    · subst h
      have hrest : bs.filter (fun BB => decide (BB.addr = B.addr)) = [] := by
        rw [List.filter_eq_nil_iff]
        intro b' hb' hEq
        exact hnd.1 (List.mem_map.mpr ⟨b', hb', by simpa using hEq⟩)
      simp [List.filter_cons, hrest]
    · have hne : b.addr ≠ B.addr := by
        intro hEq
        exact hnd.1 (List.mem_map.mpr ⟨B, h, hEq.symm⟩)
      simp [List.filter_cons, hne, ih hnd.2 h]

theorem filter_links_source (bs : List BasicBlock) (a : Nat) :
    (bs.flatMap blockLinks).filter (fun q => decide (q.1 = some a))
      = (bs.filter fun BB => decide (BB.addr = a)).flatMap blockLinks := by
  induction bs with
  | nil => rfl
  | cons b bs ih =>
    rw [List.flatMap_cons, List.filter_append, ih]
    by_cases h : b.addr = a
    · have : (blockLinks b).filter (fun q => decide (q.1 = some a)) = blockLinks b := by
        rw [List.filter_eq_self]
        intro q hq
        unfold blockLinks at hq
        obtain ⟨S, _, rfl⟩ := List.mem_map.mp hq
        simp [h]
      simp [List.filter_cons, h, this]
    · have : (blockLinks b).filter (fun q => decide (q.1 = some a)) = [] := by
        rw [List.filter_eq_nil_iff]
        intro q hq
        unfold blockLinks at hq
        obtain ⟨S, _, rfl⟩ := List.mem_map.mp hq
        simp [h]
      simp [List.filter_cons, h, this]

theorem mem_bodyBlocks {M : IRModule} {F : IRFunction} {B : BasicBlock}
    (hF : F ∈ M.functions) (hd : F.isDeclaration = false) (hB : B ∈ F.blocks) :
    B ∈ bodyBlocks M := by
  unfold bodyBlocks bodyFunctions
  exact List.mem_flatMap.mpr ⟨F, List.mem_filter.mpr ⟨hF, by simp [hd]⟩, hB⟩

/-! ## Modules without a body -/

theorem serialize_empty (fnName : Nat → String) (showPtr : BlockPtr → String) (s : DFGPass)
    (h1 : s.functionNodes = []) (h2 : s.controlFlowEdges = []) (h3 : s.dataFlowEdges = []) :
    serialize fnName showPtr s = emptyGraphText := by
  simp only [serialize, h1, h2, h3, List.foldl_nil]
  decide

theorem buildGraph_only_declarations (M : IRModule) (o : Bool) (s : DFGPass)
    (h : ∀ F ∈ M.functions, F.isDeclaration = true) :
    buildGraph M o s
      = { s with dataFlowEdges := [], controlFlowEdges := [], functionNodes := [] } := by
  unfold buildGraph
  rw [foldl_visitFunction_filter]
  have : (M.functions.filter fun F => !F.isDeclaration) = [] := by
    rw [List.filter_eq_nil_iff]
    intro F hF
    simp [h F hF]
  rw [this]
  rfl

/-! ## The serializer -/

theorem foldl_append_acc (l : List String) (acc : String) :
    l.foldl (fun r s => r ++ s) acc = acc ++ String.join l := by
  unfold String.join
  induction l generalizing acc with
  | nil => simp
  | cons x l ih =>
    rw [List.foldl_cons, ih, List.foldl_cons, ih ("" ++ x), String.append_assoc]
    simp

theorem join_cons (x : String) (l : List String) : String.join (x :: l) = x ++ String.join l := by
  have h := foldl_append_acc l ("" ++ x)
  unfold String.join at h ⊢
  rw [List.foldl_cons, h]
  simp

theorem join_append (l1 l2 : List String) :
    String.join (l1 ++ l2) = String.join l1 ++ String.join l2 := by
  induction l1 with
  | nil => simp [String.join]
  | cons x l ih => rw [List.cons_append, join_cons, join_cons, ih, String.append_assoc]

theorem foldl_dumpNode (showPtr : BlockPtr → String) (ns : node_set) (file : String) :
    ns.foldl (dumpNode showPtr) file = file ++ String.join (ns.map (nodeLine showPtr)) := by
  induction ns generalizing file with
  | nil => simp [String.join]
  | cons n ns ih =>
    rw [List.foldl_cons, ih, List.map_cons, join_cons]
    simp only [dumpNode, nodeLine, String.append_assoc]

theorem foldl_dumpEdge (showPtr : BlockPtr → String) (es : edge_list) (file : String) :
    es.foldl (dumpEdge showPtr) file
      = file ++ String.join (es.map fun e => edgeLine showPtr (edgeIds e)) := by
  induction es generalizing file with
  | nil => simp [String.join]
  | cons e es ih =>
    rw [List.foldl_cons, ih, List.map_cons, join_cons]
    simp only [dumpEdge, edgeLine, edgeIds, String.append_assoc]

theorem dumpCluster_eq (fnName : Nat → String) (showPtr : BlockPtr → String) (file : String)
    (FN : Nat × node_set) :
    dumpCluster fnName showPtr file FN
      = file ++ String.join (clusterLines fnName showPtr FN) := by
  simp only [dumpCluster, clusterLines, foldl_dumpNode, join_append, join_cons,
    List.cons_append, List.nil_append, String.append_assoc]
  simp [String.join]

theorem foldl_dumpCluster (fnName : Nat → String) (showPtr : BlockPtr → String)
    (m : List (Nat × node_set)) (file : String) :
    m.foldl (dumpCluster fnName showPtr) file
      = file ++ String.join (m.flatMap (clusterLines fnName showPtr)) := by
  induction m generalizing file with
  | nil => simp [String.join]
  | cons FN m ih =>
    rw [List.foldl_cons, ih, dumpCluster_eq, List.flatMap_cons, join_append,
      String.append_assoc]

theorem serialize_layout (fnName : Nat → String) (showPtr : BlockPtr → String) (s : DFGPass) :
    serialize fnName showPtr s
      = String.join
          (layoutLines fnName showPtr s.functionNodes s.controlFlowEdges s.dataFlowEdges) := by
  have hb : ∀ X : String, "edge [color=black]" ++ ("\n" ++ X) = "edge [color=black]\n" ++ X :=
    fun X => by rw [← String.append_assoc]; rfl
  have hr : ∀ X : String, "edge [color=red]" ++ ("\n" ++ X) = "edge [color=red]\n" ++ X :=
    fun X => by rw [← String.append_assoc]; rfl
  simp only [serialize, layoutLines, foldl_dumpCluster, foldl_dumpEdge, join_append, join_cons,
    List.cons_append, List.nil_append, String.append_assoc, hb, hr]
  simp [String.join]

/-! ## The loops over instructions and successors, flattened -/

theorem foldl_flatMap_eq {σ α β : Type} (f : σ → β → σ) (h : α → List β) (xs : List α)
    (s : σ) :
    (xs.flatMap h).foldl f s = xs.foldl (fun s x => (h x).foldl f s) s := by
  induction xs generalizing s with
  | nil => rfl
  | cons x xs ih => rw [List.flatMap_cons, List.foldl_append, ih, List.foldl_cons]

theorem visitOperand_eq (M : IRModule) (o : Bool) (BB : BasicBlock) (s : DFGPass)
    (Op : Value) :
    visitOperand M o BB s Op = (operandPairs BB Op).foldl (addDataEdge M.bbName o) s := by
  cases Op with
  | other => rfl
  | instruction parent =>
    by_cases h : parent = some BB.addr
    · simp [visitOperand, operandPairs, h]
    · simp [visitOperand, operandPairs, h, addDataEdge]

theorem visitInstruction_eq (M : IRModule) (o : Bool) (BB : BasicBlock) (s : DFGPass)
    (I : Instruction) :
    visitInstruction M o BB s I
      = (I.operands.flatMap (operandPairs BB)).foldl (addDataEdge M.bbName o) s := by
  rw [foldl_flatMap_eq]
  unfold visitInstruction
  congr 1
  funext s Op
  exact visitOperand_eq M o BB s Op

theorem visitBlock_eq (M : IRModule) (o : Bool) (F : IRFunction) (s : DFGPass)
    (BB : BasicBlock) :
    visitBlock M o F s BB
      = (blockPairs BB).foldl (addDataEdge M.bbName o)
          { s with
            functionNodes :=
              mapAdjust F.addr
                (setInsert (some BB.addr, (getBBName M.bbName (some BB.addr) s.num).1))
                s.functionNodes,
            num := (getBBName M.bbName (some BB.addr) s.num).2 } := by
  unfold blockPairs
  rw [foldl_flatMap_eq]
  have hf : visitInstruction M o BB
      = fun s I => (I.operands.flatMap (operandPairs BB)).foldl (addDataEdge M.bbName o) s := by
    funext s I
    exact visitInstruction_eq M o BB s I
  rw [← hf]
  rfl

theorem visitSuccessors_eq (M : IRModule) (o : Bool) (s : DFGPass) (BB : BasicBlock) :
    visitSuccessors M o s BB = (blockLinks BB).foldl (addControlEdge M.bbName o) s := by
  unfold visitSuccessors blockLinks
  rw [List.foldl_map]
  rfl

/-! ## Membership in node sets -/

theorem ptrLt_total {p q : BlockPtr} (h1 : ptrLt p q = false) (h2 : ptrLt q p = false) :
    p = q := by
  cases p <;> cases q <;> simp [ptrLt] at h1 h2 ⊢
  omega

theorem nodeLt_total {x y : node} (h1 : nodeLt x y = false) (h2 : nodeLt y x = false) :
    x = y := by
  obtain ⟨p, l⟩ := x
  obtain ⟨q, m⟩ := y
  simp only [nodeLt, Bool.or_eq_false_iff] at h1 h2
  have hpq : p = q := ptrLt_total h1.1 h2.1
  subst hpq
  have hl : ¬ l < m := by simpa [h2.1] using h1.2
  have hm : ¬ m < l := by simpa [h1.1] using h2.2
  have : l = m := by
    rcases lt_trichotomy l m with h | h | h
    · exact absurd h hl
    · exact h
    · exact absurd h hm
  rw [this]

theorem mem_setInsert (x y : node) (l : node_set) :
    y ∈ setInsert x l ↔ y = x ∨ y ∈ l := by
  induction l with
  | nil => simp [setInsert]
  | cons z l ih =>
    by_cases h1 : nodeLt x z = true
    · simp [setInsert, h1]
    · by_cases h2 : nodeLt z x = true
      · simp only [Bool.not_eq_true] at h1
        simp only [setInsert, h1, h2, if_true, Bool.false_eq_true, if_false, List.mem_cons, ih]
        tauto
      · simp only [Bool.not_eq_true] at h1 h2
        have hxz : x = z := nodeLt_total h1 h2
        subst hxz
        simp [setInsert, h1]

theorem storedNodes_mapEnsure (k : Nat) (m : List (Nat × node_set)) :
    (mapEnsure k m).flatMap Prod.snd = m.flatMap Prod.snd := by
  induction m with
  | nil => rfl
  | cons e m ih =>
    obtain ⟨k1, v⟩ := e
    by_cases h1 : k < k1
    · simp [mapEnsure, h1]
    · by_cases h2 : k1 < k
      · simp [mapEnsure, h1, h2, ih]
      · simp [mapEnsure, h1, h2]

theorem mem_storedNodes_mapAdjust (k : Nat) (x n : node) (m : List (Nat × node_set))
    (h : n ∈ (mapAdjust k (setInsert x) m).flatMap Prod.snd) :
    n = x ∨ n ∈ m.flatMap Prod.snd := by
  induction m with
  | nil => simp [mapAdjust] at h
  | cons e m ih =>
    obtain ⟨k1, v⟩ := e
    by_cases h1 : k1 = k
    · simp only [mapAdjust, h1, if_true, List.flatMap_cons, List.mem_append,
        mem_setInsert] at h ⊢
      tauto
    · simp only [mapAdjust, h1, if_false, List.flatMap_cons, List.mem_append] at h ⊢
      rcases h with h | h
      · exact Or.inr (Or.inl h)
      · rcases ih h with h | h
        · exact Or.inl h
        · exact Or.inr (Or.inr h)

/-! ## Stored labels of named blocks -/

theorem foldl_preserves {σ α : Type} (P : σ → Prop) (f : σ → α → σ)
    (step : ∀ s x, P s → P (f s x)) (xs : List α) (s : σ) (h : P s) : P (xs.foldl f s) := by
  induction xs generalizing s with
  | nil => exact h
  | cons x xs ih => exact ih (f s x) (step s x h)

theorem namedStored_of_nodes (bbName : Nat → String) (s t : DFGPass)
    (h : namedStored bbName s) (hn : storedNodes t = storedNodes s) :
    namedStored bbName t := by
  unfold namedStored at h ⊢
  rw [hn]
  exact h

theorem namedStored_visitBlock (M : IRModule) (o : Bool) (F : IRFunction) (s : DFGPass)
    (BB : BasicBlock) (h : namedStored M.bbName s) :
    namedStored M.bbName (visitBlock M o F s BB) := by
  intro n hn a ha hnamed
  unfold storedNodes at hn
  rw [visitBlock_nodes] at hn
  rcases mem_storedNodes_mapAdjust F.addr _ n s.functionNodes hn with hx | hx
  · subst hx
    simp only [Option.some.injEq] at ha
    subst ha
    simp [getBBName, hnamed]
  · exact h n hx a ha hnamed

theorem namedStored_visitSuccessors (M : IRModule) (o : Bool) (s : DFGPass)
    (BB : BasicBlock) (h : namedStored M.bbName s) :
    namedStored M.bbName (visitSuccessors M o s BB) := by
  refine namedStored_of_nodes M.bbName _ _ h ?_
  unfold storedNodes
  rw [visitSuccessors_nodes]

theorem namedStored_visitFunction (M : IRModule) (o : Bool) (s : DFGPass)
    (F : IRFunction) (h : namedStored M.bbName s) :
    namedStored M.bbName (visitFunction M o s F) := by
  by_cases hd : F.isDeclaration = true
  · rw [visitFunction_declaration M o s F hd]
    exact h
  · simp only [visitFunction, hd, if_false]
    apply foldl_preserves _ _ (namedStored_visitSuccessors M o)
    apply foldl_preserves _ _ (namedStored_visitBlock M o F)
    refine namedStored_of_nodes M.bbName s _ h ?_
    unfold storedNodes
    exact storedNodes_mapEnsure F.addr s.functionNodes

theorem namedStored_buildGraph (M : IRModule) (o : Bool) (s : DFGPass) :
    namedStored M.bbName (buildGraph M o s) := by
  unfold buildGraph
  apply foldl_preserves _ _ (namedStored_visitFunction M o)
  intro n hn
  simp [storedNodes] at hn

/-! ## Named blocks -/

theorem getBBName_named (bbName : Nat → String) (a n : Nat) (h : bbName a ≠ "") :
    getBBName bbName (some a) n = (bbName a, n) := by
  simp [getBBName, h]

theorem mkEdge_named (bbName : Nat → String) (o : Bool) (a b n : Nat)
    (ha : bbName a ≠ "") (hb : bbName b ≠ "") :
    mkEdge bbName o (some a) (some b) n = (((some a, bbName a), (some b, bbName b)), n) := by
  cases o <;> simp [mkEdge, getBBName_named, ha, hb]

theorem setInsert_pair (a b : Nat) (l m : String) (h : a ≠ b) :
    setInsert (some b, m) [(some a, l)]
      = if a < b then [(some a, l), (some b, m)] else [(some b, m), (some a, l)] := by
  by_cases hab : a < b
  · have hba : ¬ b < a := by omega
    simp [setInsert, nodeLt, ptrLt, hab, hba]
  · have hba : b < a := by omega
    simp [setInsert, nodeLt, ptrLt, hab, hba]

/-! ## The containers keep their order -/

theorem ptrLt_trans {p q r : BlockPtr} (h1 : ptrLt p q = true) (h2 : ptrLt q r = true) :
    ptrLt p r = true := by
  cases p <;> cases q <;> cases r <;> simp [ptrLt] at h1 h2 ⊢
  omega

theorem ptrLt_asymm {p q : BlockPtr} (h1 : ptrLt p q = true) : ptrLt q p = false := by
  cases p <;> cases q <;> simp [ptrLt] at h1 ⊢
  omega

theorem nodeLt_iff (x y : node) :
    nodeLt x y = true ↔ ptrLt x.1 y.1 = true ∨ (x.1 = y.1 ∧ x.2 < y.2) := by
  simp only [nodeLt, Bool.or_eq_true, Bool.and_eq_true, Bool.not_eq_true', decide_eq_true_eq]
  constructor
  · rintro (h | ⟨h1, h2⟩)
    · exact Or.inl h
    · by_cases h3 : ptrLt x.1 y.1 = true
      · exact Or.inl h3
      · simp only [Bool.not_eq_true] at h3
        exact Or.inr ⟨ptrLt_total h3 h1, h2⟩
  · rintro (h | ⟨h1, h2⟩)
    · exact Or.inl h
    · refine Or.inr ⟨?_, h2⟩
      rw [h1]
      cases y.1 <;> simp [ptrLt]

theorem nodeLt_trans {x y z : node} (h1 : nodeLt x y = true) (h2 : nodeLt y z = true) :
    nodeLt x z = true := by
  rw [nodeLt_iff] at h1 h2 ⊢
  rcases h1 with h1 | ⟨h1, h1'⟩ <;> rcases h2 with h2 | ⟨h2, h2'⟩
  · exact Or.inl (ptrLt_trans h1 h2)
  · exact Or.inl (h2 ▸ h1)
  · exact Or.inl (h1 ▸ h2)
  · exact Or.inr ⟨h1.trans h2, lt_trans h1' h2'⟩

theorem setInsert_ordered (x : node) (l : node_set)
    (h : l.Pairwise (fun a b => nodeLt a b = true)) :
    (setInsert x l).Pairwise (fun a b => nodeLt a b = true) := by
  induction l with
  | nil => simp [setInsert]
  | cons y ys ih =>
    rw [List.pairwise_cons] at h
    by_cases h1 : nodeLt x y = true
    · simp only [setInsert, h1, if_true]
      refine List.pairwise_cons.mpr ⟨fun z hz => ?_, List.pairwise_cons.mpr h⟩
      rcases List.mem_cons.mp hz with hz | hz
      · rw [hz]; exact h1
      · exact nodeLt_trans h1 (h.1 z hz)
    · by_cases h2 : nodeLt y x = true
      · simp only [setInsert, h1, h2, if_true, if_false]
        refine List.pairwise_cons.mpr ⟨fun z hz => ?_, ih h.2⟩
        rcases (mem_setInsert x z ys).mp hz with hz | hz
        · rw [hz]; exact h2
        · exact h.1 z hz
      · simp only [setInsert, h1, h2, if_false]
        exact List.pairwise_cons.mpr h

theorem mapEnsure_ordered (k : Nat) (m : List (Nat × node_set))
    (h : (m.map Prod.fst).Pairwise (fun a b => a < b)) :
    ((mapEnsure k m).map Prod.fst).Pairwise (fun a b => a < b) := by
  induction m with
  | nil => simp [mapEnsure]
  | cons e m ih =>
    obtain ⟨k1, v⟩ := e
    rw [List.map_cons, List.pairwise_cons] at h
    by_cases h1 : k < k1
    · simp only [mapEnsure, h1, if_true, List.map_cons]
      refine List.pairwise_cons.mpr ⟨fun z hz => ?_, List.pairwise_cons.mpr h⟩
      rcases List.mem_cons.mp hz with hz | hz
      · rw [hz]; exact h1
      · exact Nat.lt_trans h1 (h.1 z hz)
    · by_cases h2 : k1 < k
      · simp only [mapEnsure, h1, h2, if_true, if_false, List.map_cons]
        refine List.pairwise_cons.mpr ⟨fun z hz => ?_, ih h.2⟩
        rcases (mem_mapEnsure_keys k z m).mp hz with hz | hz
        · rw [hz]; exact h2
        · exact h.1 z hz
      · simp only [mapEnsure, h1, h2, if_false, List.map_cons]
        exact List.pairwise_cons.mpr h

theorem mem_mapEnsure (k : Nat) (FN : Nat × node_set) (m : List (Nat × node_set))
    (h : FN ∈ mapEnsure k m) : FN = (k, []) ∨ FN ∈ m := by
  induction m with
  | nil => simpa [mapEnsure] using h
  | cons e m ih =>
    obtain ⟨k1, v⟩ := e
    by_cases h1 : k < k1
    · simp only [mapEnsure, h1, if_true, List.mem_cons] at h ⊢
      exact h
    · by_cases h2 : k1 < k
      · simp only [mapEnsure, h1, h2, if_true, if_false, List.mem_cons] at h ⊢
        rcases h with h | h
        · exact Or.inr (Or.inl h)
        · rcases ih h with h | h
          · exact Or.inl h
          · exact Or.inr (Or.inr h)
      · simp only [mapEnsure, h1, h2, if_false] at h
        exact Or.inr h

theorem mem_mapAdjust (k : Nat) (f : node_set → node_set) (FN : Nat × node_set)
    (m : List (Nat × node_set)) (h : FN ∈ mapAdjust k f m) :
    FN ∈ m ∨ ∃ v, (k, v) ∈ m ∧ FN = (k, f v) := by
  induction m with
  | nil => simp [mapAdjust] at h
  | cons e m ih =>
    obtain ⟨k1, v⟩ := e
    by_cases h1 : k1 = k
    · simp only [mapAdjust, h1, if_true, List.mem_cons] at h ⊢
      rcases h with h | h
      · exact Or.inr ⟨v, Or.inl rfl, h⟩
      · exact Or.inl (Or.inr h)
    · simp only [mapAdjust, h1, if_false, List.mem_cons] at h ⊢
      rcases h with h | h
      · exact Or.inl (Or.inl h)
      · rcases ih h with h | ⟨w, hw, hFN⟩
        · exact Or.inl (Or.inr h)
        · exact Or.inr ⟨w, Or.inr hw, hFN⟩

theorem containersOrdered_of_nodes (s t : DFGPass) (h : containersOrdered s)
    (hn : t.functionNodes = s.functionNodes) : containersOrdered t := by
  unfold containersOrdered at h ⊢
  rw [hn]
  exact h

theorem containersOrdered_visitBlock (M : IRModule) (o : Bool) (F : IRFunction)
    (s : DFGPass) (BB : BasicBlock) (h : containersOrdered s) :
    containersOrdered (visitBlock M o F s BB) := by
  unfold containersOrdered at h ⊢
  rw [visitBlock_nodes, mapAdjust_keys]
  refine ⟨h.1, fun FN hFN => ?_⟩
  rcases mem_mapAdjust _ _ FN _ hFN with hold | ⟨v, hv, hEq⟩
  · exact h.2 FN hold
  · rw [hEq]
    exact setInsert_ordered _ v (h.2 (F.addr, v) hv)

theorem containersOrdered_visitFunction (M : IRModule) (o : Bool) (s : DFGPass)
    (F : IRFunction) (h : containersOrdered s) :
    containersOrdered (visitFunction M o s F) := by
  by_cases hd : F.isDeclaration = true
  · rw [visitFunction_declaration M o s F hd]
    exact h
  · simp only [visitFunction, hd, if_false]
    apply foldl_preserves _ _
      (fun s BB hs => containersOrdered_of_nodes s _ hs (visitSuccessors_nodes M o s BB))
    apply foldl_preserves _ _ (containersOrdered_visitBlock M o F)
    refine ⟨mapEnsure_ordered F.addr s.functionNodes h.1, fun FN hFN => ?_⟩
    rcases mem_mapEnsure F.addr FN s.functionNodes hFN with hnew | hold
    · rw [hnew]
      exact List.Pairwise.nil
    · exact h.2 FN hold

theorem containersOrdered_buildGraph (M : IRModule) (o : Bool) (s : DFGPass) :
    containersOrdered (buildGraph M o s) := by
  unfold buildGraph
  apply foldl_preserves _ _ (containersOrdered_visitFunction M o)
  exact ⟨List.Pairwise.nil, fun FN hFN => by cases hFN⟩

/-! ## A node set taken alone -/

theorem setInsert_length (x : node) (ns : node_set) (hx : x ∉ ns) :
    (setInsert x ns).length = ns.length + 1 := by
  induction ns with
  | nil => rfl
  | cons y ys ih =>
    by_cases h1 : nodeLt x y = true
    · simp [setInsert, h1]
    · by_cases h2 : nodeLt y x = true
      · have hxs : x ∉ ys := fun h => hx (List.mem_cons_of_mem _ h)
        simp [setInsert, h1, h2, ih hxs]
      · simp only [Bool.not_eq_true] at h1 h2
        exact absurd (by rw [nodeLt_total h1 h2]; exact List.mem_cons_self _ _) hx

theorem returnsDanglingView_eq (bbName : Nat → String) (p : BlockPtr) :
    returnsDanglingView bbName p = isAnonymous bbName p := by
  cases p with
  | none => rfl
  | some a => by_cases h : bbName a = "" <;> simp [returnsDanglingView, isAnonymous, h]

theorem counterSequence_getElem (bbName : Nat → String) (ps : List BlockPtr) :
    ∀ (num i c : Nat), (counterSequence bbName ps num)[i]? = some c →
      c = num + ((ps.take i).filter fun q => isAnonymous bbName q).length := by
  induction ps with
  | nil => intro num i c hc; simp [counterSequence] at hc
  | cons q ps ih =>
    intro num i c hc
    cases i with
    | zero =>
      simp only [counterSequence, List.getElem?_cons_zero, Option.some.injEq] at hc
      simp [← hc]
    | succ i =>
      simp only [counterSequence, List.getElem?_cons_succ] at hc
      have h := ih _ i c hc
      rw [h, getBBName_num]
      by_cases hq : isAnonymous bbName q = true
      · simp [List.take_succ_cons, List.filter_cons, hq, Nat.add_assoc, Nat.add_comm 1]
      · simp [List.take_succ_cons, List.filter_cons, hq]

theorem filter_take_lt (bbName : Nat → String) (ps : List BlockPtr) :
    ∀ (i j : Nat) (p : BlockPtr), i < j → ps[i]? = some p → isAnonymous bbName p = true →
      ((ps.take i).filter fun q => isAnonymous bbName q).length
        < ((ps.take j).filter fun q => isAnonymous bbName q).length := by
  induction ps with
  | nil => intro i j p _ hp; simp at hp
  | cons q ps ih =>
    intro i j p hij hp ha
    cases j with
    | zero => omega
    | succ j =>
      cases i with
      | zero =>
        simp only [List.getElem?_cons_zero, Option.some.injEq] at hp
        subst hp
        simp [List.take_succ_cons, List.filter_cons, ha]
      | succ i =>
        simp only [List.getElem?_cons_succ] at hp
        have h := ih i j p (by omega) hp ha
        by_cases hq : isAnonymous bbName q = true
        · simp only [List.take_succ_cons, List.filter_cons, hq, if_true, List.length_cons]
          omega
        · simp only [List.take_succ_cons, List.filter_cons, hq, if_false]
          exact h

/-! ## The node set of one function -/

theorem nodeSetOf_of_not_key (k : Nat) (m : List (Nat × node_set))
    (h : k ∉ m.map Prod.fst) : nodeSetOf k m = [] := by
  induction m with
  | nil => rfl
  | cons e m ih =>
    obtain ⟨k1, v⟩ := e
    simp only [List.map_cons, List.mem_cons, not_or] at h
    have h1 : ¬ k1 = k := fun hc => h.1 hc.symm
    simp [nodeSetOf, h1, ih h.2]

theorem nodeSetOf_mem (k : Nat) (m : List (Nat × node_set)) (h : k ∈ m.map Prod.fst) :
    (k, nodeSetOf k m) ∈ m := by
  induction m with
  | nil => simp at h
  | cons e m ih =>
    obtain ⟨k1, v⟩ := e
    by_cases h1 : k1 = k
    · subst h1
      simp [nodeSetOf]
    · have h2 : k ∈ m.map Prod.fst := by
        simp only [List.map_cons, List.mem_cons] at h
        rcases h with h | h
        · exact absurd h.symm h1
        · exact h
      simp only [nodeSetOf, h1, if_false]
      exact List.mem_cons_of_mem _ (ih h2)

theorem nodeSetOf_subset_stored (k : Nat) (m : List (Nat × node_set)) (n : node)
    (h : n ∈ nodeSetOf k m) : n ∈ m.flatMap Prod.snd := by
  induction m with
  | nil => simp [nodeSetOf] at h
  | cons e m ih =>
    obtain ⟨k1, v⟩ := e
    by_cases h1 : k1 = k
    · simp only [nodeSetOf, h1, if_true] at h
      simp [List.flatMap_cons, h]
    · simp only [nodeSetOf, h1, if_false] at h
      simp [List.flatMap_cons, ih h]

theorem nodeSetOf_mapEnsure (k k' : Nat) (m : List (Nat × node_set))
    (hm : (m.map Prod.fst).Pairwise (fun a b => a < b)) :
    nodeSetOf k (mapEnsure k' m) = nodeSetOf k m := by
  induction m with
  | nil =>
    by_cases h : k' = k <;> simp [mapEnsure, nodeSetOf, h]
  | cons e m ih =>
    obtain ⟨k1, v⟩ := e
    rw [List.map_cons, List.pairwise_cons] at hm
    by_cases h1 : k' < k1
    · simp only [mapEnsure, h1, if_true]
      by_cases h : k' = k
      · subst h
        have hnk : k' ∉ ((k1, v) :: m).map Prod.fst := by
          simp only [List.map_cons, List.mem_cons, not_or]
          refine ⟨by omega, fun hc => ?_⟩
          have := hm.1 k' hc
          omega
        have hnil := nodeSetOf_of_not_key k' _ hnk
        simp only [nodeSetOf, if_true]
        exact hnil.symm
      · simp [nodeSetOf, h]
    · by_cases h2 : k1 < k'
      · simp only [mapEnsure, h1, h2, if_true, if_false]
        by_cases h : k1 = k
        · simp [nodeSetOf, h]
        · simp [nodeSetOf, h, ih hm.2]
      · simp only [mapEnsure, h1, h2, if_false]

theorem nodeSetOf_mapAdjust_self (k : Nat) (f : node_set → node_set)
    (m : List (Nat × node_set)) (h : k ∈ m.map Prod.fst) :
    nodeSetOf k (mapAdjust k f m) = f (nodeSetOf k m) := by
  induction m with
  | nil => simp at h
  | cons e m ih =>
    obtain ⟨k1, v⟩ := e
    by_cases h1 : k1 = k
    · simp [mapAdjust, nodeSetOf, h1]
    · have h2 : k ∈ m.map Prod.fst := by
        simp only [List.map_cons, List.mem_cons] at h
        rcases h with h | h
        · exact absurd h.symm h1
        · exact h
      simp [mapAdjust, nodeSetOf, h1, ih h2]

theorem nodeSetOf_mapAdjust_other (k k' : Nat) (f : node_set → node_set)
    (m : List (Nat × node_set)) (h : k ≠ k') :
    nodeSetOf k (mapAdjust k' f m) = nodeSetOf k m := by
  induction m with
  | nil => rfl
  | cons e m ih =>
    obtain ⟨k1, v⟩ := e
    by_cases h1 : k1 = k'
    · have h2 : ¬ k1 = k := fun hc => h (hc.symm.trans h1)
      simp only [mapAdjust, h1, if_true, nodeSetOf]
      rw [← h1]
      simp only [h2, if_false]
    · by_cases h2 : k1 = k
      · subst h2
        simp only [mapAdjust, h1, if_false, nodeSetOf, if_true]
      · simp only [mapAdjust, h1, if_false, nodeSetOf, h2, ih]

theorem visitBlock_nodeSetOf_self (M : IRModule) (o : Bool) (F : IRFunction) (s : DFGPass)
    (BB : BasicBlock) (h : F.addr ∈ s.functionNodes.map Prod.fst) :
    nodeSetOf F.addr (visitBlock M o F s BB).functionNodes
      = setInsert (some BB.addr, (getBBName M.bbName (some BB.addr) s.num).1)
          (nodeSetOf F.addr s.functionNodes) := by
  rw [visitBlock_nodes, nodeSetOf_mapAdjust_self _ _ _ h]

theorem visitBlock_nodeSetOf_other (M : IRModule) (o : Bool) (F : IRFunction) (s : DFGPass)
    (BB : BasicBlock) (k : Nat) (h : k ≠ F.addr) :
    nodeSetOf k (visitBlock M o F s BB).functionNodes = nodeSetOf k s.functionNodes := by
  rw [visitBlock_nodes, nodeSetOf_mapAdjust_other _ _ _ _ h]

theorem visitBlock_keys (M : IRModule) (o : Bool) (F : IRFunction) (s : DFGPass)
    (BB : BasicBlock) :
    (visitBlock M o F s BB).functionNodes.map Prod.fst = s.functionNodes.map Prod.fst := by
  rw [visitBlock_nodes, mapAdjust_keys]

theorem foldl_visitBlock_keys (M : IRModule) (o : Bool) (F : IRFunction)
    (bs : List BasicBlock) (s : DFGPass) :
    (bs.foldl (visitBlock M o F) s).functionNodes.map Prod.fst
      = s.functionNodes.map Prod.fst :=
  foldl_keeps (visitBlock M o F) (fun s => s.functionNodes.map Prod.fst)
    (fun s BB => visitBlock_keys M o F s BB) bs s

theorem foldl_visitBlock_other (M : IRModule) (o : Bool) (F : IRFunction)
    (bs : List BasicBlock) (s : DFGPass) (k : Nat) (h : k ≠ F.addr) :
    nodeSetOf k (bs.foldl (visitBlock M o F) s).functionNodes
      = nodeSetOf k s.functionNodes :=
  foldl_keeps (visitBlock M o F) (fun s => nodeSetOf k s.functionNodes)
    (fun s BB => visitBlock_nodeSetOf_other M o F s BB k h) bs s

theorem foldl_visitBlock_mono (M : IRModule) (o : Bool) (F : IRFunction)
    (bs : List BasicBlock) (s : DFGPass) (h : F.addr ∈ s.functionNodes.map Prod.fst)
    (n : node) (hn : n ∈ nodeSetOf F.addr s.functionNodes) :
    n ∈ nodeSetOf F.addr (bs.foldl (visitBlock M o F) s).functionNodes := by
  induction bs generalizing s with
  | nil => exact hn
  | cons b bs ih =>
    rw [List.foldl_cons]
    apply ih
    · rw [visitBlock_keys]; exact h
    · rw [visitBlock_nodeSetOf_self M o F s b h, mem_setInsert]
      exact Or.inr hn

theorem foldl_visitBlock_cover (M : IRModule) (o : Bool) (F : IRFunction)
    (bs : List BasicBlock) (s : DFGPass) (h : F.addr ∈ s.functionNodes.map Prod.fst)
    (B : BasicBlock) (hB : B ∈ bs) :
    ∃ k, ((some B.addr, (getBBName M.bbName (some B.addr) k).1) : node)
      ∈ nodeSetOf F.addr (bs.foldl (visitBlock M o F) s).functionNodes := by
  induction bs generalizing s with
  | nil => cases hB
  | cons b bs ih =>
    rw [List.foldl_cons]
    have hk : F.addr ∈ (visitBlock M o F s b).functionNodes.map Prod.fst := by
      rw [visitBlock_keys]; exact h
    rcases List.mem_cons.mp hB with hb | hb
    · subst hb
      refine ⟨s.num, foldl_visitBlock_mono M o F bs _ hk _ ?_⟩
      rw [visitBlock_nodeSetOf_self M o F s B h, mem_setInsert]
      exact Or.inl rfl
    · exact ih _ hk hb

theorem foldl_visitBlock_only (M : IRModule) (o : Bool) (F : IRFunction)
    (bs : List BasicBlock) (s : DFGPass) (h : F.addr ∈ s.functionNodes.map Prod.fst)
    (n : node) (hn : n ∈ nodeSetOf F.addr (bs.foldl (visitBlock M o F) s).functionNodes) :
    n ∈ nodeSetOf F.addr s.functionNodes ∨ ∃ B ∈ bs, n.1 = some B.addr := by
  induction bs generalizing s with
  | nil => exact Or.inl hn
  | cons b bs ih =>
    rw [List.foldl_cons] at hn
    have hk : F.addr ∈ (visitBlock M o F s b).functionNodes.map Prod.fst := by
      rw [visitBlock_keys]; exact h
    rcases ih _ hk hn with h1 | ⟨B, hB, hB'⟩
    · rw [visitBlock_nodeSetOf_self M o F s b h, mem_setInsert] at h1
      rcases h1 with h1 | h1
      · exact Or.inr ⟨b, List.mem_cons_self _ _, by rw [h1]⟩
      · exact Or.inl h1
    · exact Or.inr ⟨B, List.mem_cons_of_mem _ hB, hB'⟩

theorem foldl_visitBlock_size (M : IRModule) (o : Bool) (F : IRFunction)
    (bs : List BasicBlock) (s : DFGPass) (h : F.addr ∈ s.functionNodes.map Prod.fst)
    (hnd : (bs.map fun B => B.addr).Nodup)
    (hfresh : ∀ B ∈ bs, ∀ n ∈ nodeSetOf F.addr s.functionNodes, n.1 ≠ some B.addr) :
    (nodeSetOf F.addr (bs.foldl (visitBlock M o F) s).functionNodes).length
      = (nodeSetOf F.addr s.functionNodes).length + bs.length := by
  induction bs generalizing s with
  | nil => rfl
  | cons b bs ih =>
    rw [List.map_cons, List.nodup_cons] at hnd
    rw [List.foldl_cons]
    have hk : F.addr ∈ (visitBlock M o F s b).functionNodes.map Prod.fst := by
      rw [visitBlock_keys]; exact h
    have hself := visitBlock_nodeSetOf_self M o F s b h
    rw [ih _ hk hnd.2, hself, setInsert_length, List.length_cons]
    · omega
    · intro hc
      exact hfresh b (List.mem_cons_self _ _) _ hc rfl
    · intro B hB n hn
      rw [hself, mem_setInsert] at hn
      rcases hn with hn | hn
      · rw [hn]
        intro hc
        simp only [Option.some.injEq] at hc
        exact hnd.1 (List.mem_map.mpr ⟨B, hB, hc.symm⟩)
      · exact hfresh B (List.mem_cons_of_mem _ hB) n hn

/-! ## The node sets along the visit of a function and of the module -/

theorem visitFunction_nodes (M : IRModule) (o : Bool) (s : DFGPass) (F : IRFunction)
    (hd : F.isDeclaration = false) :
    (visitFunction M o s F).functionNodes
      = (F.blocks.foldl (visitBlock M o F)
          { s with functionNodes := mapEnsure F.addr s.functionNodes }).functionNodes := by
  simp only [visitFunction, hd, Bool.false_eq_true, if_false]
  exact foldl_keeps (visitSuccessors M o) (fun s => s.functionNodes)
    (fun s BB => visitSuccessors_nodes M o s BB) F.blocks _

theorem mem_keys_ensured (k : Nat) (m : List (Nat × node_set)) :
    k ∈ (mapEnsure k m).map Prod.fst :=
  (mem_mapEnsure_keys k k m).mpr (Or.inl rfl)

theorem visitFunction_other (M : IRModule) (o : Bool) (s : DFGPass) (F : IRFunction)
    (hs : containersOrdered s) (k : Nat) (hk : k ≠ F.addr) :
    nodeSetOf k (visitFunction M o s F).functionNodes = nodeSetOf k s.functionNodes := by
  by_cases hd : F.isDeclaration = true
  · rw [visitFunction_declaration M o s F hd]
  · simp only [Bool.not_eq_true] at hd
    rw [visitFunction_nodes M o s F hd, foldl_visitBlock_other M o F F.blocks _ k hk]
    exact nodeSetOf_mapEnsure k F.addr s.functionNodes hs.1

theorem visitFunction_mono (M : IRModule) (o : Bool) (s : DFGPass) (F : IRFunction)
    (hs : containersOrdered s) (k : Nat) (n : node) (hn : n ∈ nodeSetOf k s.functionNodes) :
    n ∈ nodeSetOf k (visitFunction M o s F).functionNodes := by
  by_cases hk : k = F.addr
  · by_cases hd : F.isDeclaration = true
    · rw [visitFunction_declaration M o s F hd]; exact hn
    · simp only [Bool.not_eq_true] at hd
      subst hk
      rw [visitFunction_nodes M o s F hd]
      apply foldl_visitBlock_mono M o F F.blocks _ (mem_keys_ensured _ _)
      show n ∈ nodeSetOf F.addr (mapEnsure F.addr s.functionNodes)
      rw [nodeSetOf_mapEnsure _ _ _ hs.1]
      exact hn
  · rw [visitFunction_other M o s F hs k hk]; exact hn

theorem visitFunction_cover (M : IRModule) (o : Bool) (s : DFGPass) (F : IRFunction)
    (hd : F.isDeclaration = false) (B : BasicBlock) (hB : B ∈ F.blocks) :
    ∃ k, ((some B.addr, (getBBName M.bbName (some B.addr) k).1) : node)
      ∈ nodeSetOf F.addr (visitFunction M o s F).functionNodes := by
  rw [visitFunction_nodes M o s F hd]
  exact foldl_visitBlock_cover M o F F.blocks _ (mem_keys_ensured _ _) B hB

theorem visitFunction_only (M : IRModule) (o : Bool) (s : DFGPass) (F : IRFunction)
    (hs : containersOrdered s) (hd : F.isDeclaration = false) (n : node)
    (hn : n ∈ nodeSetOf F.addr (visitFunction M o s F).functionNodes) :
    n ∈ nodeSetOf F.addr s.functionNodes ∨ ∃ B ∈ F.blocks, n.1 = some B.addr := by
  rw [visitFunction_nodes M o s F hd] at hn
  rcases foldl_visitBlock_only M o F F.blocks _ (mem_keys_ensured _ _) n hn with h | h
  · left
    have h' : n ∈ nodeSetOf F.addr (mapEnsure F.addr s.functionNodes) := h
    rwa [nodeSetOf_mapEnsure _ _ _ hs.1] at h'
  · exact Or.inr h

theorem visitFunction_size (M : IRModule) (o : Bool) (s : DFGPass) (F : IRFunction)
    (hs : containersOrdered s) (hd : F.isDeclaration = false)
    (hnd : (F.blocks.map fun B => B.addr).Nodup)
    (hbase : nodeSetOf F.addr s.functionNodes = []) :
    (nodeSetOf F.addr (visitFunction M o s F).functionNodes).length = F.blocks.length := by
  have hb : nodeSetOf F.addr (mapEnsure F.addr s.functionNodes) = [] := by
    rw [nodeSetOf_mapEnsure _ _ _ hs.1]; exact hbase
  rw [visitFunction_nodes M o s F hd,
    foldl_visitBlock_size M o F F.blocks _ (mem_keys_ensured _ _) hnd]
  · show (nodeSetOf F.addr (mapEnsure F.addr s.functionNodes)).length + _ = _
    rw [hb]; simp
  · intro B _ n hn
    have hn' : n ∈ nodeSetOf F.addr (mapEnsure F.addr s.functionNodes) := hn
    rw [hb] at hn'
    cases hn'

theorem containersOrdered_foldl (M : IRModule) (o : Bool) (fs : List IRFunction)
    (s : DFGPass) (hs : containersOrdered s) :
    containersOrdered (fs.foldl (visitFunction M o) s) :=
  foldl_preserves _ _ (containersOrdered_visitFunction M o) fs s hs

theorem foldl_visitFunction_mono (M : IRModule) (o : Bool) (fs : List IRFunction)
    (s : DFGPass) (hs : containersOrdered s) (k : Nat) (n : node)
    (hn : n ∈ nodeSetOf k s.functionNodes) :
    n ∈ nodeSetOf k (fs.foldl (visitFunction M o) s).functionNodes := by
  induction fs generalizing s with
  | nil => exact hn
  | cons F fs ih =>
    rw [List.foldl_cons]
    exact ih _ (containersOrdered_visitFunction M o s F hs)
      (visitFunction_mono M o s F hs k n hn)

theorem foldl_visitFunction_cover (M : IRModule) (o : Bool) (fs : List IRFunction)
    (s : DFGPass) (hs : containersOrdered s) (F : IRFunction) (hF : F ∈ fs)
    (hd : F.isDeclaration = false) (B : BasicBlock) (hB : B ∈ F.blocks) :
    ∃ k, ((some B.addr, (getBBName M.bbName (some B.addr) k).1) : node)
      ∈ nodeSetOf F.addr (fs.foldl (visitFunction M o) s).functionNodes := by
  induction fs generalizing s with
  | nil => cases hF
  | cons G fs ih =>
    rw [List.foldl_cons]
    have hs' := containersOrdered_visitFunction M o s G hs
    rcases List.mem_cons.mp hF with h | h
    · subst h
      obtain ⟨k, hk⟩ := visitFunction_cover M o s F hd B hB
      exact ⟨k, foldl_visitFunction_mono M o fs _ hs' _ _ hk⟩
    · exact ih _ hs' h

theorem foldl_visitFunction_other (M : IRModule) (o : Bool) (fs : List IRFunction)
    (s : DFGPass) (hs : containersOrdered s) (k : Nat)
    (hk : ∀ F ∈ fs, F.isDeclaration = false → k ≠ F.addr) :
    nodeSetOf k (fs.foldl (visitFunction M o) s).functionNodes
      = nodeSetOf k s.functionNodes := by
  induction fs generalizing s with
  | nil => rfl
  | cons G fs ih =>
    rw [List.foldl_cons,
      ih _ (containersOrdered_visitFunction M o s G hs)
        (fun F hF hd => hk F (List.mem_cons_of_mem _ hF) hd)]
    by_cases hd : G.isDeclaration = true
    · rw [visitFunction_declaration M o s G hd]
    · simp only [Bool.not_eq_true] at hd
      exact visitFunction_other M o s G hs k (hk G (List.mem_cons_self _ _) hd)

theorem foldl_visitFunction_exact (M : IRModule) (o : Bool) (fs : List IRFunction)
    (s : DFGPass) (hs : containersOrdered s)
    (hnd : ((fs.filter fun F => !F.isDeclaration).map fun F => F.addr).Nodup)
    (hblocks : ∀ F ∈ fs, F.isDeclaration = false → (F.blocks.map fun B => B.addr).Nodup)
    (hbase : ∀ F ∈ fs, F.isDeclaration = false → nodeSetOf F.addr s.functionNodes = [])
    (F : IRFunction) (hF : F ∈ fs) (hd : F.isDeclaration = false) :
    (∀ n ∈ nodeSetOf F.addr (fs.foldl (visitFunction M o) s).functionNodes,
        ∃ B ∈ F.blocks, n.1 = some B.addr)
    ∧ (nodeSetOf F.addr (fs.foldl (visitFunction M o) s).functionNodes).length
        = F.blocks.length := by
  induction fs generalizing s with
  | nil => cases hF
  | cons G fs ih =>
    rw [List.foldl_cons]
    have hs' := containersOrdered_visitFunction M o s G hs
    by_cases hG : G.isDeclaration = true
    · have hfil : ((G :: fs).filter fun F => !F.isDeclaration)
          = fs.filter fun F => !F.isDeclaration := by
        simp [List.filter_cons, hG]
      rw [hfil] at hnd
      have hFfs : F ∈ fs := by
        rcases List.mem_cons.mp hF with h | h
        · rw [h, hG] at hd; cases hd
        · exact h
      rw [visitFunction_declaration M o s G hG]
      exact ih s hs hnd (fun H hH => hblocks H (List.mem_cons_of_mem _ hH))
        (fun H hH => hbase H (List.mem_cons_of_mem _ hH)) hFfs
    · simp only [Bool.not_eq_true] at hG
      have hfil : ((G :: fs).filter fun F => !F.isDeclaration)
          = G :: fs.filter fun F => !F.isDeclaration := by
        simp [List.filter_cons, hG]
      rw [hfil, List.map_cons, List.nodup_cons] at hnd
      have hne : ∀ H ∈ fs, H.isDeclaration = false → G.addr ≠ H.addr := by
        intro H hH hHd hc
        exact hnd.1 (List.mem_map.mpr ⟨H, List.mem_filter.mpr ⟨hH, by simp [hHd]⟩, hc.symm⟩)
      by_cases hFG : F.addr = G.addr
      · have hrest := foldl_visitFunction_other M o fs _ hs' F.addr
          (fun H hH hHd => by rw [hFG]; exact hne H hH hHd)
        rw [hrest, hFG]
        have hFeq : F.blocks = G.blocks := by
          rcases List.mem_cons.mp hF with h | h
          · rw [h]
          · exact absurd hFG.symm (hne F h hd)
        rw [hFeq]
        refine ⟨fun n hn => ?_, ?_⟩
        · rcases visitFunction_only M o s G hs hG n hn with h | h
          · rw [hbase G (List.mem_cons_self _ _) hG] at h
            cases h
          · exact h
        · exact visitFunction_size M o s G hs hG (hblocks G (List.mem_cons_self _ _) hG)
            (hbase G (List.mem_cons_self _ _) hG)
      · have hFfs : F ∈ fs := by
          rcases List.mem_cons.mp hF with h | h
          · rw [h] at hFG; exact absurd rfl hFG
          · exact h
        refine ih _ hs' hnd.2 (fun H hH => hblocks H (List.mem_cons_of_mem _ hH)) ?_ hFfs
        intro H hH hHd
        rw [visitFunction_other M o s G hs H.addr (fun hc => hne H hH hHd hc.symm)]
        exact hbase H (List.mem_cons_of_mem _ hH) hHd

theorem foldl_visitFunction_only (M : IRModule) (o : Bool) (fs : List IRFunction)
    (s : DFGPass) (hs : containersOrdered s) (k : Nat) (n : node)
    (hn : n ∈ nodeSetOf k (fs.foldl (visitFunction M o) s).functionNodes) :
    n ∈ nodeSetOf k s.functionNodes
      ∨ ∃ F ∈ fs, F.isDeclaration = false ∧ F.addr = k ∧ ∃ B ∈ F.blocks, n.1 = some B.addr := by
  induction fs generalizing s with
  | nil => exact Or.inl hn
  | cons G fs ih =>
    rw [List.foldl_cons] at hn
    rcases ih _ (containersOrdered_visitFunction M o s G hs) hn with h | ⟨F, hF, hd, hk, hB⟩
    · by_cases hG : G.isDeclaration = true
      · rw [visitFunction_declaration M o s G hG] at h
        exact Or.inl h
      · simp only [Bool.not_eq_true] at hG
        by_cases hk : k = G.addr
        · subst hk
          rcases visitFunction_only M o s G hs hG n h with h1 | h1
          · exact Or.inl h1
          · exact Or.inr ⟨G, List.mem_cons_self _ _, hG, rfl, h1⟩
        · rw [visitFunction_other M o s G hs k hk] at h
          exact Or.inl h
    · exact Or.inr ⟨F, List.mem_cons_of_mem _ hF, hd, hk, hB⟩

theorem containersOrdered_cleared (s : DFGPass) :
    containersOrdered
      { s with dataFlowEdges := [], controlFlowEdges := [], functionNodes := [] } :=
  ⟨List.Pairwise.nil, fun FN hFN => by cases hFN⟩

theorem buildGraph_cover (M : IRModule) (o : Bool) (s : DFGPass) (F : IRFunction)
    (hF : F ∈ M.functions) (hd : F.isDeclaration = false) (B : BasicBlock)
    (hB : B ∈ F.blocks) :
    ∃ k, ((some B.addr, (getBBName M.bbName (some B.addr) k).1) : node)
      ∈ nodeSetOf F.addr (buildGraph M o s).functionNodes :=
  foldl_visitFunction_cover M o M.functions _ (containersOrdered_cleared s) F hF hd B hB

theorem buildGraph_nodeSetOf_ids (M : IRModule) (o : Bool) (s : DFGPass) (k : Nat)
    (p : BlockPtr) :
    p ∈ (nodeSetOf k (buildGraph M o s).functionNodes).map Prod.fst
      ↔ ∃ F ∈ M.functions, F.isDeclaration = false ∧ F.addr = k
          ∧ ∃ B ∈ F.blocks, p = some B.addr := by
  constructor
  · intro hp
    obtain ⟨n, hn, hnp⟩ := List.mem_map.mp hp
    rcases foldl_visitFunction_only M o M.functions _ (containersOrdered_cleared s) k n hn
      with h | ⟨F, hF, hd, hk, B, hB, hBn⟩
    · simp [nodeSetOf] at h
    · exact ⟨F, hF, hd, hk, B, hB, by rw [← hnp, hBn]⟩
  · rintro ⟨F, hF, hd, hk, B, hB, hp⟩
    obtain ⟨j, hj⟩ := buildGraph_cover M o s F hF hd B hB
    rw [hk] at hj
    exact List.mem_map.mpr ⟨_, hj, hp.symm⟩

/-! ## Labels on edges are results of `getBBName` -/

theorem mkEdge_resolved (bbName : Nat → String) (o : Bool) (src dst : BlockPtr) (num : Nat)
    (n : node)
    (hn : n = (mkEdge bbName o src dst num).1.1 ∨ n = (mkEdge bbName o src dst num).1.2) :
    ∃ k, n.2 = (getBBName bbName n.1 k).1 := by
  cases o
  · simp only [mkEdge, Bool.false_eq_true, if_false] at hn
    rcases hn with hn | hn
    · exact ⟨(getBBName bbName dst num).2, by rw [hn]⟩
    · exact ⟨num, by rw [hn]⟩
  · simp only [mkEdge, if_true] at hn
    rcases hn with hn | hn
    · exact ⟨num, by rw [hn]⟩
    · exact ⟨(getBBName bbName src num).2, by rw [hn]⟩

theorem edgesResolved_step (bbName : Nat → String) (o : Bool) (s t : DFGPass)
    (q : BlockPtr × BlockPtr) (h : edgesResolved bbName s)
    (hedges : ∀ e ∈ t.dataFlowEdges ++ t.controlFlowEdges,
      e ∈ s.dataFlowEdges ++ s.controlFlowEdges ∨ e = (mkEdge bbName o q.1 q.2 s.num).1) :
    edgesResolved bbName t := by
  intro e he n hn
  rcases hedges e he with hold | hnew
  · exact h e hold n hn
  · subst hnew
    exact mkEdge_resolved bbName o q.1 q.2 s.num n hn

theorem edgesResolved_addDataEdge (bbName : Nat → String) (o : Bool) (s : DFGPass)
    (q : BlockPtr × BlockPtr) (h : edgesResolved bbName s) :
    edgesResolved bbName (addDataEdge bbName o s q) := by
  refine edgesResolved_step bbName o s _ q h ?_
  intro e he
  simp only [addDataEdge, List.mem_append, List.mem_singleton] at he ⊢
  tauto

theorem edgesResolved_addControlEdge (bbName : Nat → String) (o : Bool) (s : DFGPass)
    (q : BlockPtr × BlockPtr) (h : edgesResolved bbName s) :
    edgesResolved bbName (addControlEdge bbName o s q) := by
  refine edgesResolved_step bbName o s _ q h ?_
  intro e he
  simp only [addControlEdge, List.mem_append, List.mem_singleton] at he ⊢
  tauto

theorem edgesResolved_visitBlock (M : IRModule) (o : Bool) (F : IRFunction) (s : DFGPass)
    (BB : BasicBlock) (h : edgesResolved M.bbName s) :
    edgesResolved M.bbName (visitBlock M o F s BB) := by
  rw [visitBlock_eq]
  exact foldl_preserves _ _ (edgesResolved_addDataEdge M.bbName o) _ _ h

theorem edgesResolved_visitSuccessors (M : IRModule) (o : Bool) (s : DFGPass)
    (BB : BasicBlock) (h : edgesResolved M.bbName s) :
    edgesResolved M.bbName (visitSuccessors M o s BB) := by
  rw [visitSuccessors_eq]
  exact foldl_preserves _ _ (edgesResolved_addControlEdge M.bbName o) _ s h

theorem edgesResolved_visitFunction (M : IRModule) (o : Bool) (s : DFGPass) (F : IRFunction)
    (h : edgesResolved M.bbName s) : edgesResolved M.bbName (visitFunction M o s F) := by
  by_cases hd : F.isDeclaration = true
  · rw [visitFunction_declaration M o s F hd]
    exact h
  · simp only [visitFunction, hd, if_false]
    apply foldl_preserves _ _ (edgesResolved_visitSuccessors M o)
    apply foldl_preserves _ _ (edgesResolved_visitBlock M o F)
    exact h

theorem edgesResolved_buildGraph (M : IRModule) (o : Bool) (s : DFGPass) :
    edgesResolved M.bbName (buildGraph M o s) := by
  unfold buildGraph
  apply foldl_preserves _ _ (edgesResolved_visitFunction M o)
  intro e he
  simp at he

/-! ## Edge endpoints of modules with closed references -/

theorem mem_blockPairs (BB : BasicBlock) (q : BlockPtr × BlockPtr) (h : q ∈ blockPairs BB) :
    q ∈ blockOccurrences BB ∧ q.2 = some BB.addr := by
  rw [blockPairs_eq] at h
  have hq := (List.mem_filter.mp h).1
  refine ⟨hq, ?_⟩
  unfold blockOccurrences at hq
  obtain ⟨I, _, hI⟩ := List.mem_flatMap.mp hq
  obtain ⟨C, _, hC⟩ := List.mem_map.mp hI
  rw [← hC]

theorem edge_endpoints_closed (M : IRModule) (o : Bool) (s : DFGPass)
    (hW : closedReferences M) (e : edge)
    (he : e ∈ (buildGraph M o s).controlFlowEdges ++ (buildGraph M o s).dataFlowEdges) :
    ∃ F ∈ M.functions, F.isDeclaration = false
      ∧ (∃ B ∈ F.blocks, e.1.1 = some B.addr) ∧ (∃ B ∈ F.blocks, e.2.1 = some B.addr) := by
  rcases List.mem_append.mp he with hc | hdf
  · have hid : edgeIds e ∈ (buildGraph M o s).controlFlowEdges.map edgeIds :=
      List.mem_map.mpr ⟨e, hc, rfl⟩
    rw [buildGraph_control, successorLinks, bodyBlocks] at hid
    obtain ⟨B, hB, hq⟩ := List.mem_flatMap.mp hid
    obtain ⟨F, hF, hBF⟩ := List.mem_flatMap.mp hB
    obtain ⟨S, hS, hSe⟩ := List.mem_map.mp hq
    have hFm := (List.mem_filter.mp hF).1
    obtain ⟨B', hB', hSB'⟩ := (hW F hF B hBF).1 S hS
    have h1 : e.1.1 = some B.addr := (congrArg Prod.fst hSe).symm
    have h2 : e.2.1 = S := (congrArg Prod.snd hSe).symm
    exact ⟨F, hFm, mem_bodyFunctions hF, ⟨B, hBF, h1⟩, ⟨B', hB', by rw [h2, hSB']⟩⟩
  · have hid : edgeIds e ∈ (buildGraph M o s).dataFlowEdges.map edgeIds :=
      List.mem_map.mpr ⟨e, hdf, rfl⟩
    rw [buildGraph_data_pairs, bodyBlocks] at hid
    obtain ⟨B, hB, hq⟩ := List.mem_flatMap.mp hid
    obtain ⟨F, hF, hBF⟩ := List.mem_flatMap.mp hB
    have hFm := (List.mem_filter.mp hF).1
    obtain ⟨hocc, htgt⟩ := mem_blockPairs B (edgeIds e) hq
    obtain ⟨B', hB', hSB'⟩ := (hW F hF B hBF).2 _ hocc
    exact ⟨F, hFm, mem_bodyFunctions hF, ⟨B', hB', hSB'⟩, ⟨B, hBF, htgt⟩⟩

/-! ## Further facts for the claims on node sets, edges and the counter -/

theorem mem_nodeSetOf_entry (k : Nat) (m : List (Nat × node_set)) (n : node)
    (h : n ∈ nodeSetOf k m) : ∃ FN ∈ m, FN.1 = k ∧ n ∈ FN.2 := by
  induction m with
  | nil => simp [nodeSetOf] at h
  | cons e m ih =>
    obtain ⟨k1, v⟩ := e
    by_cases h1 : k1 = k
    · simp only [nodeSetOf, h1, if_true] at h
      exact ⟨(k1, v), List.mem_cons_self _ _, h1, h⟩
    · simp only [nodeSetOf, h1, if_false] at h
      obtain ⟨FN, hFN, hk, hn⟩ := ih h
      exact ⟨FN, List.mem_cons_of_mem _ hFN, hk, hn⟩

theorem nodeLine_mem_layout (fnName : Nat → String) (showPtr : BlockPtr → String)
    (m : List (Nat × node_set)) (cf df : edge_list) (k : Nat) (n : node)
    (h : n ∈ nodeSetOf k m) : nodeLine showPtr n ∈ layoutLines fnName showPtr m cf df := by
  obtain ⟨FN, hFN, _, hn⟩ := mem_nodeSetOf_entry k m n h
  unfold layoutLines
  simp only [List.mem_append, List.mem_flatMap]
  refine Or.inl (Or.inl (Or.inl (Or.inl (Or.inl (Or.inr ⟨FN, hFN, ?_⟩)))))
  unfold clusterLines
  simp only [List.mem_append, List.mem_map]
  exact Or.inl (Or.inr ⟨n, hn, rfl⟩)

theorem blocks_nodup_of_distinctBlocks (M : IRModule) (h : distinctBlocks M) (F : IRFunction)
    (hF : F ∈ bodyFunctions M) : (F.blocks.map fun B => B.addr).Nodup := by
  unfold distinctBlocks bodyBlocks at h
  rw [List.map_flatMap] at h
  exact (List.nodup_flatMap.mp h).1 F hF

theorem blocks_disjoint_of_distinctBlocks (M : IRModule) (h : distinctBlocks M)
    (F G : IRFunction) (hF : F ∈ bodyFunctions M) (hG : G ∈ bodyFunctions M) (hne : F ≠ G)
    (B B' : BasicBlock) (hB : B ∈ F.blocks) (hB' : B' ∈ G.blocks) : B.addr ≠ B'.addr := by
  unfold distinctBlocks bodyBlocks at h
  rw [List.map_flatMap] at h
  have hpw := (List.nodup_flatMap.mp h).2
  have hsym : Symmetric (Function.onFun List.Disjoint
      fun F : IRFunction => F.blocks.map fun B => B.addr) :=
    fun a b hab => List.Disjoint.symm hab
  have hdis := List.Pairwise.forall hsym hpw hF hG hne
  intro hc
  exact List.disjoint_left.mp hdis (List.mem_map.mpr ⟨B, hB, rfl⟩)
    (List.mem_map.mpr ⟨B', hB', hc.symm⟩)

theorem eq_of_addr_of_distinctFunctions (M : IRModule) (h : distinctFunctions M)
    (F G : IRFunction) (hF : F ∈ bodyFunctions M) (hG : G ∈ bodyFunctions M)
    (hFG : F.addr = G.addr) : F = G :=
  List.inj_on_of_nodup_map h hF hG hFG

theorem mem_bodyFunctions_iff (M : IRModule) (F : IRFunction) :
    F ∈ bodyFunctions M ↔ F ∈ M.functions ∧ F.isDeclaration = false := by
  unfold bodyFunctions
  simp [List.mem_filter]

theorem buildGraph_num_edges (M : IRModule) (o : Bool) (s : DFGPass) :
    (buildGraph M o s).num
      = s.num
        + ((bodyBlocks M).filter fun BB => isAnonymous M.bbName (some BB.addr)).length
        + (((buildGraph M o s).dataFlowEdges.map fun e =>
              anonymousEndpoints M.bbName (edgeIds e)).sum
          + ((buildGraph M o s).controlFlowEdges.map fun e =>
              anonymousEndpoints M.bbName (edgeIds e)).sum) := by
  have hd : ((buildGraph M o s).dataFlowEdges.map fun e =>
        anonymousEndpoints M.bbName (edgeIds e))
      = ((operandOccurrences M).filter crossBlock).map (anonymousEndpoints M.bbName) := by
    rw [← buildGraph_data M o s, List.map_map]
    rfl
  have hc : ((buildGraph M o s).controlFlowEdges.map fun e =>
        anonymousEndpoints M.bbName (edgeIds e))
      = (successorLinks M).map (anonymousEndpoints M.bbName) := by
    rw [← buildGraph_control M o s, List.map_map]
    rfl
  rw [hd, hc]
  exact buildGraph_num M o s

theorem sum_map_eq_zero {α : Type} (f : α → Nat) (l : List α) (h : ∀ x ∈ l, f x = 0) :
    (l.map f).sum = 0 := by
  induction l with
  | nil => rfl
  | cons x l ih =>
    rw [List.map_cons, List.sum_cons, h x (List.mem_cons_self _ _),
      ih (fun y hy => h y (List.mem_cons_of_mem _ hy))]

theorem keys_eq_of_same_members (l1 l2 : List Nat)
    (h1 : l1.Pairwise (fun a b => a < b)) (h2 : l2.Pairwise (fun a b => a < b))
    (h : ∀ k, k ∈ l1 ↔ k ∈ l2) : l1 = l2 := by
  have n1 : l1.Nodup := List.Pairwise.imp (fun hab => Nat.ne_of_lt hab) h1
  have n2 : l2.Nodup := List.Pairwise.imp (fun hab => Nat.ne_of_lt hab) h2
  exact List.eq_of_perm_of_sorted ((List.perm_ext_iff_of_nodup n1 n2).mpr h) h1 h2

/-! ## The state at the moment of an insertion -/

theorem foldl_visitBlock_num (M : IRModule) (o : Bool) (F : IRFunction)
    (bs : List BasicBlock) (s : DFGPass) :
    (bs.foldl (visitBlock M o F) s).num
      = s.num + (bs.filter fun BB => isAnonymous M.bbName (some BB.addr)).length
          + ((bs.flatMap blockPairs).map (anonymousEndpoints M.bbName)).sum := by
  induction bs generalizing s with
  | nil => simp
  | cons b bs ih =>
    rw [List.foldl_cons, ih, visitBlock_num]
    by_cases hb : isAnonymous M.bbName (some b.addr) = true
    · simp only [List.filter_cons, hb, if_true, List.length_cons, List.flatMap_cons,
        List.map_append, List.sum_append]
      omega
    · simp only [Bool.not_eq_true] at hb
      simp only [List.filter_cons, hb, Bool.false_eq_true, if_false, List.flatMap_cons,
        List.map_append, List.sum_append]
      omega

theorem flatMap_blockPairs_eq (bs : List BasicBlock) :
    bs.flatMap blockPairs = (bs.flatMap blockOccurrences).filter crossBlock := by
  rw [List.filter_flatMap]
  congr 1
  funext BB
  exact blockPairs_eq BB

theorem stateAtInsertion_num (M : IRModule) (o : Bool) (s : DFGPass) (pre : List IRFunction)
    (F : IRFunction) (bpre : List BasicBlock) :
    (stateAtInsertion M o s pre F bpre).num
      = s.num
        + (((bodyBlocks { M with functions := pre }).filter fun BB =>
              isAnonymous M.bbName (some BB.addr)).length
          + (bpre.filter fun BB => isAnonymous M.bbName (some BB.addr)).length)
        + (((((operandOccurrences { M with functions := pre }).filter crossBlock).map
              (anonymousEndpoints M.bbName)).sum
            + (((bpre.flatMap blockOccurrences).filter crossBlock).map
                (anonymousEndpoints M.bbName)).sum)
          + ((successorLinks { M with functions := pre }).map
              (anonymousEndpoints M.bbName)).sum) := by
  unfold stateAtInsertion
  simp only []
  rw [foldl_visitBlock_num, flatMap_blockPairs_eq]
  show (pre.foldl (visitFunction M o)
      { s with dataFlowEdges := [], controlFlowEdges := [], functionNodes := [] }).num + _ + _ = _
  rw [foldl_visitFunction_filter,
    foldl_body_num M o _ (fun G hG => by simpa using (List.mem_filter.mp hG).2)]
  have h1 : ((pre.filter fun F => !F.isDeclaration).flatMap fun F => F.blocks)
      = bodyBlocks { M with functions := pre } := rfl
  have h2 : (bodyBlocks { M with functions := pre }).flatMap blockLinks
      = successorLinks { M with functions := pre } := rfl
  have h3 : (bodyBlocks { M with functions := pre }).flatMap blockPairs
      = (operandOccurrences { M with functions := pre }).filter crossBlock :=
    flatMap_blockPairs_eq _
  rw [h1, h2, h3]
  simp only []
  omega

theorem stateAtInsertion_inserted (M : IRModule) (o : Bool) (s : DFGPass)
    (pre post : List IRFunction) (F : IRFunction) (bpre bpost : List BasicBlock)
    (B : BasicBlock) (hM : M.functions = pre ++ F :: post) (hd : F.isDeclaration = false)
    (hF : F.blocks = bpre ++ B :: bpost) :
    ((some B.addr,
        (getBBName M.bbName (some B.addr) (stateAtInsertion M o s pre F bpre).num).1) : node)
      ∈ nodeSetOf F.addr (buildGraph M o s).functionNodes := by
  unfold buildGraph
  rw [hM, List.foldl_append, List.foldl_cons]
  have hpre : containersOrdered (pre.foldl (visitFunction M o)
      { s with dataFlowEdges := [], controlFlowEdges := [], functionNodes := [] }) :=
    containersOrdered_foldl M o pre _ (containersOrdered_cleared s)
  apply foldl_visitFunction_mono M o post _ (containersOrdered_visitFunction M o _ F hpre)
  rw [visitFunction_nodes M o _ F hd, hF, List.foldl_append, List.foldl_cons]
  have hkey : F.addr ∈ (stateAtInsertion M o s pre F bpre).functionNodes.map Prod.fst := by
    unfold stateAtInsertion
    rw [foldl_visitBlock_keys]
    exact mem_keys_ensured _ _
  have hkey' : F.addr
      ∈ (visitBlock M o F (stateAtInsertion M o s pre F bpre) B).functionNodes.map Prod.fst := by
    rw [visitBlock_keys]; exact hkey
  apply foldl_visitBlock_mono M o F bpost _ hkey'
  rw [visitBlock_nodeSetOf_self M o F _ B hkey, mem_setInsert]
  exact Or.inl rfl

/-! ## The state at the insertion of a node -/

theorem stateAtInsertion_data (M : IRModule) (o : Bool) (s : DFGPass) (pre : List IRFunction)
    (F : IRFunction) (bpre : List BasicBlock) :
    (stateAtInsertion M o s pre F bpre).dataFlowEdges.map edgeIds
      = (operandOccurrences { M with functions := pre }).filter crossBlock
          ++ (bpre.flatMap blockOccurrences).filter crossBlock := by
  unfold stateAtInsertion
  simp only []
  rw [foldl_appends (visitBlock M o F) (fun s => s.dataFlowEdges.map edgeIds) blockPairs
    (visitBlock_data M o F) bpre, flatMap_blockPairs_eq]
  congr 1
  exact buildGraph_data { M with functions := pre } o s

theorem stateAtInsertion_control (M : IRModule) (o : Bool) (s : DFGPass)
    (pre : List IRFunction) (F : IRFunction) (bpre : List BasicBlock) :
    (stateAtInsertion M o s pre F bpre).controlFlowEdges.map edgeIds
      = successorLinks { M with functions := pre } := by
  unfold stateAtInsertion
  simp only []
  rw [foldl_keeps (visitBlock M o F) (fun s => s.controlFlowEdges)
    (visitBlock_control M o F) bpre]
  exact buildGraph_control { M with functions := pre } o s

theorem stateAtInsertion_shift (M : IRModule) (o : Bool) (s : DFGPass) (pre : List IRFunction)
    (F : IRFunction) (bpre : List BasicBlock) :
    (stateAtInsertion M o s pre F bpre).num
      = s.num + (stateAtInsertion M o DFGPass.new pre F bpre).num := by
  rw [stateAtInsertion_num, stateAtInsertion_num]
  simp only [DFGPass.new]
  omega

theorem stateAtInsertion_member (M : IRModule) (o : Bool) (s : DFGPass)
    (pre post : List IRFunction) (F : IRFunction) (bpre bpost : List BasicBlock)
    (B : BasicBlock) (hM : M.functions = pre ++ F :: post) (hd : F.isDeclaration = false)
    (hF : F.blocks = bpre ++ B :: bpost) :
    some B.addr ∈ (nodeSetOf F.addr (buildGraph M o s).functionNodes).map Prod.fst :=
  List.mem_map.mpr ⟨_, stateAtInsertion_inserted M o s pre post F bpre bpost B hM hd hF, rfl⟩

theorem bodyBlocks_declarations (M : IRModule) (pre : List IRFunction)
    (hpre : ∀ G ∈ pre, G.isDeclaration = true) :
    bodyBlocks { M with functions := pre } = [] := by
  have : (pre.filter fun F => !F.isDeclaration) = [] := by
    rw [List.filter_eq_nil_iff]
    intro G hG
    simp [hpre G hG]
  simp [bodyBlocks, bodyFunctions, this]

theorem stateAtInsertion_first_num (M : IRModule) (o : Bool) (s : DFGPass)
    (pre : List IRFunction) (F : IRFunction) (bpre : List BasicBlock)
    (hpre : ∀ G ∈ pre, G.isDeclaration = true) :
    (stateAtInsertion M o s pre F bpre).num
      = s.num + (bpre.filter fun BB => isAnonymous M.bbName (some BB.addr)).length
        + (((bpre.flatMap blockOccurrences).filter crossBlock).map
            (anonymousEndpoints M.bbName)).sum := by
  rw [stateAtInsertion_num]
  simp only [operandOccurrences, successorLinks, bodyBlocks_declarations M pre hpre]
  simp

theorem stateAtInsertion_first_edges (M : IRModule) (o : Bool) (s : DFGPass)
    (pre : List IRFunction) (F : IRFunction) (bpre : List BasicBlock)
    (hpre : ∀ G ∈ pre, G.isDeclaration = true)
    (hb : (bpre.flatMap blockOccurrences).filter crossBlock = []) :
    (stateAtInsertion M o s pre F bpre).dataFlowEdges = []
    ∧ (stateAtInsertion M o s pre F bpre).controlFlowEdges = [] := by
  have h1 := stateAtInsertion_data M o s pre F bpre
  have h2 := stateAtInsertion_control M o s pre F bpre
  simp only [operandOccurrences, successorLinks, bodyBlocks_declarations M pre hpre, hb,
    List.flatMap_nil, List.filter_nil, List.append_nil, List.map_eq_nil_iff] at h1 h2
  exact ⟨h1, h2⟩


/-! ## The claims -/

/-- C1. Data-flow correctness: the identity pairs of the data-flow edge list are, in order,
the instruction-result operand occurrences (owning block C, using block B) of the functions
with a body for which C is not B; so the number of data-flow edges with identity pair
(C, B) is the number of such occurrences when C is not B, and 0 when C is B.  Operands that
are not instruction results are no occurrences and give no edge. -/
theorem runOnModule_dataFlow (M : IRModule) (o : Bool) (showPtr : BlockPtr → String)
    (openError : Nat) (s : DFGPass) :
    (runOnModule M o showPtr openError s).pass.dataFlowEdges.map edgeIds
        = (operandOccurrences M).filter crossBlock
    ∧ ∀ C B : BlockPtr,
        ((runOnModule M o showPtr openError s).pass.dataFlowEdges.map edgeIds).count (C, B)
          = if C ≠ B then (operandOccurrences M).count (C, B) else 0 := by
  have h : (runOnModule M o showPtr openError s).pass.dataFlowEdges.map edgeIds
      = (operandOccurrences M).filter crossBlock := buildGraph_data M o s
  refine ⟨h, fun C B => ?_⟩
  rw [h]
  exact count_filter_crossBlock _ C B

/-- C2. Control-flow correctness: the identity pairs of the control-flow edge list are, in
order and without deduplication, the successor links (B, S) of the blocks of the functions
with a body; and for a block B of such a function with successor list S1,...,Sk (blocks
having addresses of their own), the control-flow edges whose source identity is B are
exactly k edges whose targets are S1,...,Sk, in order and with multiplicity (none when B
has no terminator or no successors). -/
theorem runOnModule_controlFlow (M : IRModule) (o : Bool) (showPtr : BlockPtr → String)
    (openError : Nat) (s : DFGPass) :
    (runOnModule M o showPtr openError s).pass.controlFlowEdges.map edgeIds = successorLinks M
    ∧ ∀ F ∈ M.functions, F.isDeclaration = false → ∀ B ∈ F.blocks, distinctBlocks M →
        (((runOnModule M o showPtr openError s).pass.controlFlowEdges.filter
            fun e => decide (e.1.1 = some B.addr)).map fun e => e.2.1) = B.succs
        ∧ ((runOnModule M o showPtr openError s).pass.controlFlowEdges.filter
            fun e => decide (e.1.1 = some B.addr)).length = B.succs.length := by
  have h : (runOnModule M o showPtr openError s).pass.controlFlowEdges.map edgeIds
      = successorLinks M := buildGraph_control M o s
  refine ⟨h, fun F hF hd B hB hM => ?_⟩
  have h1 : (((runOnModule M o showPtr openError s).pass.controlFlowEdges.filter
        fun e => decide (e.1.1 = some B.addr)).map fun e => e.2.1)
      = ((((runOnModule M o showPtr openError s).pass.controlFlowEdges.map edgeIds).filter
        fun q => decide (q.1 = some B.addr)).map Prod.snd) := by
    rw [List.filter_map, List.map_map]
    rfl
  have h2 := filter_links_source (bodyBlocks M) B.addr
  unfold blockLinks at h2
  have h3 : (((runOnModule M o showPtr openError s).pass.controlFlowEdges.filter
        fun e => decide (e.1.1 = some B.addr)).map fun e => e.2.1) = B.succs := by
    rw [h1, h, successorLinks, h2,
      filter_addr_of_nodup (bodyBlocks M) hM B (mem_bodyBlocks hF hd hB)]
    simp
  refine ⟨h3, ?_⟩
  rw [← h3, List.length_map]

/-- Witness of C2 on `entryExitModule`: the block `entry` has the one successor `exit`. -/
theorem runOnModule_controlFlow_witness :
    distinctBlocks entryExitModule
    ∧ (((runOnModule entryExitModule true showHex 0 DFGPass.new).pass.controlFlowEdges.filter
          fun e => decide (e.1.1 = some 16)).map fun e => e.2.1) = [some 32]
    ∧ ((runOnModule entryExitModule true showHex 0 DFGPass.new).pass.controlFlowEdges.filter
          fun e => decide (e.1.1 = some 16)).length = 1 :=
  ⟨by decide,
   (runOnModule_controlFlow entryExitModule true showHex 0 DFGPass.new).2
    entryExitFunction (by decide) rfl
    { addr := 16, insts := [Instruction.mk [Value.other]], succs := [some 32] } (by decide)
    (by decide)⟩

/-- C3, counterexample: on an anonymous block and counter 0 the first call returns `BB_0`,
the second call returns `BB_1`, and the second call advances the counter from 1 to 2. -/
theorem getBBName_twice_anonymous :
    (getBBName (fun _ => "") (some 16) 0).1 = "BB_0"
    ∧ (getBBName (fun _ => "") (some 16) (getBBName (fun _ => "") (some 16) 0).2).1 = "BB_1"
    ∧ ¬ ((getBBName (fun _ => "") (some 16) (getBBName (fun _ => "") (some 16) 0).2).1
          = (getBBName (fun _ => "") (some 16) 0).1)
    ∧ ¬ ((getBBName (fun _ => "") (some 16) (getBBName (fun _ => "") (some 16) 0).2).2
          = (getBBName (fun _ => "") (some 16) 0).2) := by
  decide

/-- C3, amended. Label stability of `getBBName` for blocks that are absent or named: for
every counter state, two calls on the same such block return the identical label, and
neither call advances the counter. -/
theorem getBBName_stable (bbName : Nat → String) (b : BlockPtr) (n : Nat)
    (hb : isAnonymous bbName b = false) :
    (getBBName bbName b (getBBName bbName b n).2).1 = (getBBName bbName b n).1
    ∧ (getBBName bbName b (getBBName bbName b n).2).2 = (getBBName bbName b n).2
    ∧ (getBBName bbName b n).2 = n := by
  cases b with
  | none => simp [getBBName]
  | some a =>
    have h : bbName a ≠ "" := by simpa [isAnonymous] using hb
    simp [getBBName, h]

/-- Witness of C3 (amended) on the block named `entry` of `entryExitModule`, counter 7. -/
theorem getBBName_stable_witness :
    isAnonymous entryExitModule.bbName (some 16) = false
    ∧ (getBBName entryExitModule.bbName (some 16)
          (getBBName entryExitModule.bbName (some 16) 7).2).1
        = (getBBName entryExitModule.bbName (some 16) 7).1
    ∧ (getBBName entryExitModule.bbName (some 16)
          (getBBName entryExitModule.bbName (some 16) 7).2).2
        = (getBBName entryExitModule.bbName (some 16) 7).2
    ∧ (getBBName entryExitModule.bbName (some 16) 7).2 = 7 :=
  ⟨by decide, getBBName_stable entryExitModule.bbName (some 16) 7 (by decide)⟩

/-- C4, counterexample: in a run on `twoEntriesModule` the two distinct blocks at addresses
16 and 32 (of two functions) are both named `entry` by the IR and are both stored under the
label `entry`. -/
theorem runOnModule_labels_shared :
    ¬ (∀ n1 ∈ storedNodes (runOnModule twoEntriesModule true showHex 0 DFGPass.new).pass,
        ∀ n2 ∈ storedNodes (runOnModule twoEntriesModule true showHex 0 DFGPass.new).pass,
          n1.1 ≠ n2.1 → n1.2 ≠ n2.2)
    ∧ storedNodes (runOnModule twoEntriesModule true showHex 0 DFGPass.new).pass
        = [(some 16, "entry"), (some 32, "entry")]
    ∧ returnsDanglingView twoEntriesModule.bbName (some 16) = false
    ∧ returnsDanglingView twoEntriesModule.bbName (some 32) = false := by
  decide

/-- C4, amended. Labels of named blocks: in every run of `runOnModule`, the stored node of a
named block carries the name the IR gives the block, which `getBBName` hands over as a view
that stays valid; so the labels stored for two named blocks differ exactly when the names of
the two blocks differ, and two blocks with the same name (of different functions) share
their label.  Nothing is said of the labels stored for anonymous blocks. -/
theorem runOnModule_labels_unique (M : IRModule) (o : Bool) (showPtr : BlockPtr → String)
    (openError : Nat) (s : DFGPass) (n1 n2 : node) (a1 a2 : Nat)
    (h1 : n1 ∈ storedNodes (runOnModule M o showPtr openError s).pass)
    (h2 : n2 ∈ storedNodes (runOnModule M o showPtr openError s).pass)
    (hp1 : n1.1 = some a1) (hp2 : n2.1 = some a2)
    (hn1 : M.bbName a1 ≠ "") (hn2 : M.bbName a2 ≠ "") :
    n1.2 = M.bbName a1
    ∧ n2.2 = M.bbName a2
    ∧ (n1.2 ≠ n2.2 ↔ M.bbName a1 ≠ M.bbName a2)
    ∧ returnsDanglingView M.bbName n1.1 = false
    ∧ returnsDanglingView M.bbName n2.1 = false := by
  have hinv := namedStored_buildGraph M o s
  have e1 : n1.2 = M.bbName a1 := hinv n1 h1 a1 hp1 hn1
  have e2 : n2.2 = M.bbName a2 := hinv n2 h2 a2 hp2 hn2
  refine ⟨e1, e2, by rw [e1, e2], ?_, ?_⟩
  · rw [hp1]
    simp [returnsDanglingView, hn1]
  · rw [hp2]
    simp [returnsDanglingView, hn2]

/-- Witness of C4 (amended) on `entryExitModule`: the stored labels `entry` and `exit` of
its two named blocks differ. -/
theorem runOnModule_labels_unique_witness :
    ((some 16, "entry") : node)
        ∈ storedNodes (runOnModule entryExitModule true showHex 0 DFGPass.new).pass
    ∧ ((some 32, "exit") : node)
        ∈ storedNodes (runOnModule entryExitModule true showHex 0 DFGPass.new).pass
    ∧ "entry" = entryExitModule.bbName 16
    ∧ "exit" = entryExitModule.bbName 32
    ∧ ("entry" ≠ "exit" ↔ entryExitModule.bbName 16 ≠ entryExitModule.bbName 32)
    ∧ returnsDanglingView entryExitModule.bbName (some 16) = false
    ∧ returnsDanglingView entryExitModule.bbName (some 32) = false :=
  ⟨by decide, by decide,
   runOnModule_labels_unique entryExitModule true showHex 0 DFGPass.new
    (some 16, "entry") (some 32, "exit") 16 32 (by decide) (by decide) rfl rfl
    (by decide) (by decide)⟩

/-- C5. Declaration skipping: a run on a module is the run on the module with its
declaration-only functions left out (same returned value, same node map, same edge lists,
same counter, same text); the keys of the node map are exactly the addresses of the
functions with a body; and a module that is empty or holds only declarations yields an empty
node map, two empty edge lists, an unchanged counter and the text of a graph without
clusters and edges. -/
theorem runOnModule_skips_declarations (M : IRModule) (o : Bool)
    (showPtr : BlockPtr → String) (openError : Nat) (s : DFGPass) :
    runOnModule M o showPtr openError s
        = runOnModule (withoutDeclarations M) o showPtr openError s
    ∧ (∀ k : Nat,
        k ∈ (runOnModule M o showPtr openError s).pass.functionNodes.map Prod.fst
          ↔ ∃ F ∈ M.functions, F.isDeclaration = false ∧ F.addr = k)
    ∧ ((∀ F ∈ M.functions, F.isDeclaration = true) →
        (runOnModule M o showPtr openError s).pass
            = { dataFlowEdges := [], controlFlowEdges := [], functionNodes := [], num := s.num }
        ∧ (runOnModule M o showPtr openError s).artifact
            = if openError = 0 then some emptyGraphText else none) := by
  refine ⟨?_, ?_, ?_⟩
  · simp only [runOnModule_eq, ← buildGraph_withoutDeclarations]
    rfl
  · intro k
    exact buildGraph_keys M o s k
  · intro h
    have hb := buildGraph_only_declarations M o s h
    refine ⟨hb, ?_⟩
    simp only [runOnModule_eq]
    rw [serialize_empty M.fnName showPtr (buildGraph M o s) (by rw [hb]) (by rw [hb])
      (by rw [hb])]

/-- Witness of C5 on a module that holds one declaration only. -/
theorem runOnModule_skips_declarations_witness :
    (∀ F ∈ [IRFunction.mk 2048 true []], F.isDeclaration = true)
    ∧ (runOnModule { emptyModule with functions := [IRFunction.mk 2048 true []] } true showHex 0
          DFGPass.new).pass
        = { dataFlowEdges := [], controlFlowEdges := [], functionNodes := [], num := 0 }
    ∧ (runOnModule { emptyModule with functions := [IRFunction.mk 2048 true []] } true showHex 0
          DFGPass.new).artifact
        = some emptyGraphText :=
  ⟨by decide,
   (runOnModule_skips_declarations
      { emptyModule with functions := [IRFunction.mk 2048 true []] } true showHex 0
      DFGPass.new).2.2 (by decide)⟩

/-- C6. End-to-end scenario: for a module with one function with a body (declarations may
stand beside it) whose body is two blocks named
`entry` and `exit`, where the terminator of `entry` has the single successor `exit`, `exit`
has no successor, and the only cross-block operand occurrence is one operand in `exit` that
is computed in `entry`, `runOnModule` leaves the node set made of (entry, "entry") and
(exit, "exit"), exactly one control-flow edge entry -> exit, exactly one data-flow edge
entry -> exit, an unchanged counter, and writes a text with exactly one cluster holding two
node lines, one edge line after the black edge header and one after the red edge header. -/
theorem runOnModule_entry_exit (M : IRModule) (o : Bool) (showPtr : BlockPtr → String)
    (s : DFGPass) (F : IRFunction) (entryBB exitBB : BasicBlock)
    (hM : bodyFunctions M = [F])
    (hF : F.blocks = [entryBB, exitBB]) (hne : entryBB.addr ≠ exitBB.addr)
    (hn1 : M.bbName entryBB.addr = "entry") (hn2 : M.bbName exitBB.addr = "exit")
    (hs1 : entryBB.succs = [some exitBB.addr]) (hs2 : exitBB.succs = [])
    (ho1 : (blockOccurrences entryBB).filter crossBlock = [])
    (ho2 : (blockOccurrences exitBB).filter crossBlock
            = [(some entryBB.addr, some exitBB.addr)]) :
    (runOnModule M o showPtr 0 s).pass
        = { dataFlowEdges := [((some entryBB.addr, "entry"), (some exitBB.addr, "exit"))],
            controlFlowEdges := [((some entryBB.addr, "entry"), (some exitBB.addr, "exit"))],
            functionNodes :=
              [(F.addr,
                if entryBB.addr < exitBB.addr
                then [(some entryBB.addr, "entry"), (some exitBB.addr, "exit")]
                else [(some exitBB.addr, "exit"), (some entryBB.addr, "entry")])],
            num := s.num }
    ∧ (runOnModule M o showPtr 0 s).artifact
        = some (String.join
            (["digraph \"CDFG for Module\" \x7b\n",
              "subgraph cluster_" ++ M.fnName F.addr ++ " \x7b\n",
              "label = \"" ++ M.fnName F.addr ++ "\";\n"]
            ++ (if entryBB.addr < exitBB.addr
                then [nodeLine showPtr (some entryBB.addr, "entry"),
                      nodeLine showPtr (some exitBB.addr, "exit")]
                else [nodeLine showPtr (some exitBB.addr, "exit"),
                      nodeLine showPtr (some entryBB.addr, "entry")])
            ++ ["\x7d\n",
                "edge [color=black]\n",
                edgeLine showPtr (some entryBB.addr, some exitBB.addr),
                "edge [color=red]\n",
                edgeLine showPtr (some entryBB.addr, some exitBB.addr),
                "\x7d\n"])) := by
  have he : M.bbName entryBB.addr ≠ "" := by rw [hn1]; decide
  have hx : M.bbName exitBB.addr ≠ "" := by rw [hn2]; decide
  have hd : F.isDeclaration = false :=
    mem_bodyFunctions (by rw [hM]; exact List.mem_singleton_self F)
  have hM1 : (M.functions.filter fun F => !F.isDeclaration) = [F] := hM
  have hpass : buildGraph M o s
      = { dataFlowEdges := [((some entryBB.addr, "entry"), (some exitBB.addr, "exit"))],
          controlFlowEdges := [((some entryBB.addr, "entry"), (some exitBB.addr, "exit"))],
          functionNodes :=
            [(F.addr,
              if entryBB.addr < exitBB.addr
              then [(some entryBB.addr, "entry"), (some exitBB.addr, "exit")]
              else [(some exitBB.addr, "exit"), (some entryBB.addr, "entry")])],
          num := s.num } := by
    unfold buildGraph
    rw [foldl_visitFunction_filter]
    simp only [hM1, List.foldl_cons, List.foldl_nil, visitFunction, hd,
      Bool.false_eq_true, if_false, hF, visitBlock_eq, visitSuccessors_eq, blockPairs_eq,
      ho1, ho2, blockLinks, hs1, hs2, List.map_cons, List.map_nil, addDataEdge,
      addControlEdge, mkEdge_named M.bbName o _ _ _ he hx, getBBName_named M.bbName _ _ he,
      getBBName_named M.bbName _ _ hx, hn1, hn2, mapEnsure, mapAdjust, if_true,
      List.nil_append]
    rw [show setInsert (some entryBB.addr, "entry") [] = [(some entryBB.addr, "entry")] from rfl,
      setInsert_pair _ _ _ _ hne]
  have hrun : (runOnModule M o showPtr 0 s).pass = buildGraph M o s := rfl
  refine ⟨by rw [hrun, hpass], ?_⟩
  simp only [runOnModule_eq, if_true, serialize_layout, hpass, layoutLines, clusterLines,
    List.flatMap_cons, List.flatMap_nil, List.map_cons, List.map_nil, edgeIds]
  by_cases hlt : entryBB.addr < exitBB.addr <;> simp [hlt]

/-- Witness of C6 on `entryExitModule` (addresses printed in hexadecimal). -/
theorem runOnModule_entry_exit_witness :
    (runOnModule entryExitModule true showHex 0 DFGPass.new).pass
        = { dataFlowEdges := [((some 16, "entry"), (some 32, "exit"))],
            controlFlowEdges := [((some 16, "entry"), (some 32, "exit"))],
            functionNodes := [(4096, [(some 16, "entry"), (some 32, "exit")])],
            num := 0 }
    ∧ (runOnModule entryExitModule true showHex 0 DFGPass.new).artifact
        = some (String.join
            ["digraph \"CDFG for Module\" \x7b\n",
             "subgraph cluster_main \x7b\n",
             "label = \"main\";\n",
             "\tNode0x10[shape=record, label=\"entry\"];\n",
             "\tNode0x20[shape=record, label=\"exit\"];\n",
             "\x7d\n",
             "edge [color=black]\n",
             "\tNode0x10 -> Node0x20\n",
             "edge [color=red]\n",
             "\tNode0x10 -> Node0x20\n",
             "\x7d\n"]) :=
  runOnModule_entry_exit entryExitModule true showHex DFGPass.new entryExitFunction
    { addr := 16, insts := [Instruction.mk [Value.other]], succs := [some 32] }
    { addr := 32,
      insts := [Instruction.mk
        [Value.other, Value.instruction (some 16), Value.instruction (some 32)]],
      succs := [] }
    (by decide) rfl (by decide) (by decide) (by decide) rfl rfl (by decide) (by decide)

/-- C7, counterexample: in `threeAnonymousModule` the second block has a cross-block
operand, whose data-flow edge is resolved before the third block is visited; the node of
the third block is therefore inserted when the counter is 4, not 2, under either evaluation
order, so its label is not synthesized from 2, and the run ends with the counter at 9. -/
theorem runOnModule_three_anonymous_relabelled :
    (stateAtInsertion threeAnonymousModule true DFGPass.new []
        (IRFunction.mk 4096 false
          [ BasicBlock.mk 16 [] [some 32],
            BasicBlock.mk 32 [Instruction.mk [Value.instruction (some 16)]] [some 48],
            BasicBlock.mk 48 [] [] ])
        [ BasicBlock.mk 16 [] [some 32],
          BasicBlock.mk 32 [Instruction.mk [Value.instruction (some 16)]] [some 48] ]).num = 4
    ∧ (stateAtInsertion threeAnonymousModule false DFGPass.new []
        (IRFunction.mk 4096 false
          [ BasicBlock.mk 16 [] [some 32],
            BasicBlock.mk 32 [Instruction.mk [Value.instruction (some 16)]] [some 48],
            BasicBlock.mk 48 [] [] ])
        [ BasicBlock.mk 16 [] [some 32],
          BasicBlock.mk 32 [Instruction.mk [Value.instruction (some 16)]] [some 48] ]).num = 4
    ∧ ¬ ((stateAtInsertion threeAnonymousModule true DFGPass.new []
        (IRFunction.mk 4096 false
          [ BasicBlock.mk 16 [] [some 32],
            BasicBlock.mk 32 [Instruction.mk [Value.instruction (some 16)]] [some 48],
            BasicBlock.mk 48 [] [] ])
        [ BasicBlock.mk 16 [] [some 32],
          BasicBlock.mk 32 [Instruction.mk [Value.instruction (some 16)]] [some 48] ]).num = 2)
    ∧ threeAnonymousModule.functions
        = [ IRFunction.mk 4096 false
              [ BasicBlock.mk 16 [] [some 32],
                BasicBlock.mk 32 [Instruction.mk [Value.instruction (some 16)]] [some 48],
                BasicBlock.mk 48 [] [] ] ]
    ∧ (runOnModule threeAnonymousModule true showHex 0 DFGPass.new).pass.num = 9
    ∧ (runOnModule threeAnonymousModule false showHex 0 DFGPass.new).pass.num = 9 :=
  ⟨by decide, by decide, by decide, rfl, by decide, by decide⟩

/-- C7, amended. Anonymous-block labeling, by the counter: let `F` be the first function
with a body of a module, its blocks three unnamed blocks visited in order, of which the
first and the second have no cross-block instruction operand, and let the pass be fresh
(counter 0).  Then the nodes of the first, second and third block are inserted when the
counter is 0, 1 and 2, which are the values their labels are synthesized from, whatever the
instructions of the third block and the successors of the three blocks are; no edge exists
when the node of the third block is inserted, and that insertion moves the counter to 3, so
every resolution of an edge endpoint is made from a counter value of 3 or more (a later
resolution of the third block is never made from 2 again); the three block identities are
in the node set of `F` after the run. -/
theorem runOnModule_three_anonymous (M : IRModule) (o : Bool) (showPtr : BlockPtr → String)
    (openError : Nat) (pre post : List IRFunction) (F : IRFunction) (b0 b1 b2 : BasicBlock)
    (hM : M.functions = pre ++ F :: post) (hpre : ∀ G ∈ pre, G.isDeclaration = true)
    (hd : F.isDeclaration = false) (hF : F.blocks = [b0, b1, b2])
    (h0 : M.bbName b0.addr = "") (h1 : M.bbName b1.addr = "") (h2 : M.bbName b2.addr = "")
    (ho0 : (blockOccurrences b0).filter crossBlock = [])
    (ho1 : (blockOccurrences b1).filter crossBlock = []) :
    (stateAtInsertion M o DFGPass.new pre F []).num = 0
    ∧ (stateAtInsertion M o DFGPass.new pre F [b0]).num = 1
    ∧ (stateAtInsertion M o DFGPass.new pre F [b0, b1]).num = 2
    ∧ (stateAtInsertion M o DFGPass.new pre F [b0, b1]).dataFlowEdges = []
    ∧ (stateAtInsertion M o DFGPass.new pre F [b0, b1]).controlFlowEdges = []
    ∧ (getBBName M.bbName (some b2.addr)
        (stateAtInsertion M o DFGPass.new pre F [b0, b1]).num).2 = 3
    ∧ (stateAtInsertion M o DFGPass.new pre F [b0, b1, b2]).num
        = 3 + (((blockOccurrences b2).filter crossBlock).map (anonymousEndpoints M.bbName)).sum
    ∧ 3 ≤ (runOnModule M o showPtr openError DFGPass.new).pass.num
    ∧ (∀ p : BlockPtr, p = some b0.addr ∨ p = some b1.addr ∨ p = some b2.addr →
        p ∈ (nodeSetOf F.addr
              (runOnModule M o showPtr openError DFGPass.new).pass.functionNodes).map
            Prod.fst) := by
  have ha0 : isAnonymous M.bbName (some b0.addr) = true := by simp [isAnonymous, h0]
  have ha1 : isAnonymous M.bbName (some b1.addr) = true := by simp [isAnonymous, h1]
  have ha2 : isAnonymous M.bbName (some b2.addr) = true := by simp [isAnonymous, h2]
  have hn0 : (stateAtInsertion M o DFGPass.new pre F []).num = 0 := by
    rw [stateAtInsertion_first_num M o _ pre F [] hpre]
    simp [DFGPass.new]
  have hn1 : (stateAtInsertion M o DFGPass.new pre F [b0]).num = 1 := by
    rw [stateAtInsertion_first_num M o _ pre F [b0] hpre]
    simp [DFGPass.new, ha0, ho0]
  have hn2 : (stateAtInsertion M o DFGPass.new pre F [b0, b1]).num = 2 := by
    rw [stateAtInsertion_first_num M o _ pre F [b0, b1] hpre]
    simp [DFGPass.new, ha0, ha1, ho0, ho1]
  have hn3 : (stateAtInsertion M o DFGPass.new pre F [b0, b1, b2]).num
      = 3 + (((blockOccurrences b2).filter crossBlock).map
          (anonymousEndpoints M.bbName)).sum := by
    rw [stateAtInsertion_first_num M o _ pre F [b0, b1, b2] hpre]
    simp [DFGPass.new, ha0, ha1, ha2, ho0, ho1]
  have hedges := stateAtInsertion_first_edges M o DFGPass.new pre F [b0, b1] hpre
    (by simp [ho0, ho1])
  have hrun : (runOnModule M o showPtr openError DFGPass.new).pass
      = buildGraph M o DFGPass.new := rfl
  refine ⟨hn0, hn1, hn2, hedges.1, hedges.2, ?_, hn3, ?_, ?_⟩
  · rw [hn2, getBBName_num, ha2]
    rfl
  · rw [hrun, buildGraph_num M o DFGPass.new]
    have hsub : [b0, b1, b2].Sublist (bodyBlocks M) := by
      unfold bodyBlocks bodyFunctions
      rw [hM, List.filter_append, List.filter_cons]
      simp only [hd, Bool.not_false, if_true, List.flatMap_append, List.flatMap_cons, hF]
      exact (List.sublist_append_left _ _).trans (List.sublist_append_right _ _)
    have hlen := (hsub.filter fun BB => isAnonymous M.bbName (some BB.addr)).length_le
    simp only [List.filter_cons, ha0, ha1, ha2, if_true, List.filter_nil,
      List.length_cons, List.length_nil] at hlen
    omega
  · rintro p (hp | hp | hp)
    · rw [hp, hrun]
      exact stateAtInsertion_member M o _ pre post F [] [b1, b2] b0 hM hd (by rw [hF]; rfl)
    · rw [hp, hrun]
      exact stateAtInsertion_member M o _ pre post F [b0] [b2] b1 hM hd (by rw [hF]; rfl)
    · rw [hp, hrun]
      exact stateAtInsertion_member M o _ pre post F [b0, b1] [] b2 hM hd (by rw [hF]; rfl)

/-- Witness of C7 (amended) on `threeAnonymousTailModule`, whose third block has a
cross-block operand with two anonymous endpoints: the counter is 2 when the third node is
inserted and 5 when the first loop is over. -/
theorem runOnModule_three_anonymous_witness :
    (stateAtInsertion threeAnonymousTailModule true DFGPass.new
        [IRFunction.mk 2048 true []]
        (IRFunction.mk 4096 false
          [ BasicBlock.mk 16 [Instruction.mk [Value.other]] [some 32],
            BasicBlock.mk 32 [Instruction.mk [Value.instruction (some 32)]] [some 48],
            BasicBlock.mk 48 [Instruction.mk [Value.instruction (some 16)]] [] ])
        [ BasicBlock.mk 16 [Instruction.mk [Value.other]] [some 32],
          BasicBlock.mk 32 [Instruction.mk [Value.instruction (some 32)]] [some 48] ]).num = 2
    ∧ (stateAtInsertion threeAnonymousTailModule true DFGPass.new
        [IRFunction.mk 2048 true []]
        (IRFunction.mk 4096 false
          [ BasicBlock.mk 16 [Instruction.mk [Value.other]] [some 32],
            BasicBlock.mk 32 [Instruction.mk [Value.instruction (some 32)]] [some 48],
            BasicBlock.mk 48 [Instruction.mk [Value.instruction (some 16)]] [] ])
        [ BasicBlock.mk 16 [Instruction.mk [Value.other]] [some 32],
          BasicBlock.mk 32 [Instruction.mk [Value.instruction (some 32)]] [some 48],
          BasicBlock.mk 48 [Instruction.mk [Value.instruction (some 16)]] [] ]).num = 3 + 2
    ∧ 3 ≤ (runOnModule threeAnonymousTailModule true showHex 0 DFGPass.new).pass.num :=
  ⟨(runOnModule_three_anonymous threeAnonymousTailModule true showHex 0
      [IRFunction.mk 2048 true []] []
      (IRFunction.mk 4096 false
        [ BasicBlock.mk 16 [Instruction.mk [Value.other]] [some 32],
          BasicBlock.mk 32 [Instruction.mk [Value.instruction (some 32)]] [some 48],
          BasicBlock.mk 48 [Instruction.mk [Value.instruction (some 16)]] [] ])
      (BasicBlock.mk 16 [Instruction.mk [Value.other]] [some 32])
      (BasicBlock.mk 32 [Instruction.mk [Value.instruction (some 32)]] [some 48])
      (BasicBlock.mk 48 [Instruction.mk [Value.instruction (some 16)]] [])
      rfl (by decide) rfl rfl rfl rfl rfl (by decide) (by decide)).2.2.1,
   (runOnModule_three_anonymous threeAnonymousTailModule true showHex 0
      [IRFunction.mk 2048 true []] []
      (IRFunction.mk 4096 false
        [ BasicBlock.mk 16 [Instruction.mk [Value.other]] [some 32],
          BasicBlock.mk 32 [Instruction.mk [Value.instruction (some 32)]] [some 48],
          BasicBlock.mk 48 [Instruction.mk [Value.instruction (some 16)]] [] ])
      (BasicBlock.mk 16 [Instruction.mk [Value.other]] [some 32])
      (BasicBlock.mk 32 [Instruction.mk [Value.instruction (some 32)]] [some 48])
      (BasicBlock.mk 48 [Instruction.mk [Value.instruction (some 16)]] [])
      rfl (by decide) rfl rfl rfl rfl rfl (by decide) (by decide)).2.2.2.2.2.2.1,
   (runOnModule_three_anonymous threeAnonymousTailModule true showHex 0
      [IRFunction.mk 2048 true []] []
      (IRFunction.mk 4096 false
        [ BasicBlock.mk 16 [Instruction.mk [Value.other]] [some 32],
          BasicBlock.mk 32 [Instruction.mk [Value.instruction (some 32)]] [some 48],
          BasicBlock.mk 48 [Instruction.mk [Value.instruction (some 16)]] [] ])
      (BasicBlock.mk 16 [Instruction.mk [Value.other]] [some 32])
      (BasicBlock.mk 32 [Instruction.mk [Value.instruction (some 32)]] [some 48])
      (BasicBlock.mk 48 [Instruction.mk [Value.instruction (some 16)]] [])
      rfl (by decide) rfl rfl rfl rfl rfl (by decide) (by decide)).2.2.2.2.2.2.2.1⟩

/-- C8. Serializer layout: for every node map and pair of edge lists the serializer writes,
in this order, the header line, for each function of the map in key order its cluster
(opening line, label line, one node line per node in set order, closing line), the black
edge header and one edge line per control-flow edge in list order, the red edge header and
one edge line per data-flow edge in list order, and the closing line (node and edge lines
start with a tab); this is the text `runOnModule` sends to the opened artifact, where the
map and the node sets built by the run are in the order of their containers. -/
theorem runOnModule_layout (M : IRModule) (o : Bool) (showPtr : BlockPtr → String)
    (s : DFGPass) :
    (∀ (fnName : Nat → String) (t : DFGPass),
      serialize fnName showPtr t
        = String.join
            (layoutLines fnName showPtr t.functionNodes t.controlFlowEdges t.dataFlowEdges))
    ∧ (runOnModule M o showPtr 0 s).artifact
        = some (String.join
            (layoutLines M.fnName showPtr (runOnModule M o showPtr 0 s).pass.functionNodes
              (runOnModule M o showPtr 0 s).pass.controlFlowEdges
              (runOnModule M o showPtr 0 s).pass.dataFlowEdges))
    ∧ containersOrdered (runOnModule M o showPtr 0 s).pass := by
  refine ⟨fun fnName t => serialize_layout fnName showPtr t, ?_,
    containersOrdered_buildGraph M o s⟩
  simp only [runOnModule_eq, if_true, serialize_layout]

/-- C9, counterexample: on the empty module, when the artifact cannot be opened (error code
1) the caller receives no value at all, so no failure result is reported to it; on success
the caller receives `false`. -/
theorem runOnModule_failure_not_reported :
    (runOnModule emptyModule true showHex 1 DFGPass.new).returned = none
    ∧ (runOnModule emptyModule true showHex 0 DFGPass.new).returned = some false
    ∧ ¬ (∃ r : Bool, (runOnModule emptyModule true showHex 1 DFGPass.new).returned = some r
          ∧ some r ≠ (runOnModule emptyModule true showHex 0 DFGPass.new).returned) := by
  decide

/-- C9, amended. When opening the artifact fails (non-zero error code), no graph text
reaches the artifact and `runOnModule` hands no value to its caller: the graph is built as
on success, every write goes to the unopened stream, and the call is ended by the
destructor of the stream (`report_fatal_error` on the pending error) before `return false`
is delivered: the stream holds no file from its construction on, and after the writes and
the close an error is pending on it.  On success the caller receives `false`.  The error
code is never read. -/
theorem runOnModule_open_failure (M : IRModule) (o : Bool) (showPtr : BlockPtr → String)
    (openError : Nat) (s : DFGPass) (h : openError ≠ 0) :
    (runOnModule M o showPtr openError s).artifact = none
    ∧ (runOnModule M o showPtr openError s).returned = none
    ∧ (runOnModule M o showPtr 0 s).returned = some false
    ∧ (runOnModule M o showPtr openError s).pass = (runOnModule M o showPtr 0 s).pass
    ∧ (OutStream.create openError).file = none
    ∧ (((OutStream.create openError).write
          (serialize M.fnName showPtr (buildGraph M o s))).close).pendingError = true := by
  refine ⟨?_, ?_, ?_, ?_, ?_, ?_⟩
  · simp [runOnModule_eq, h]
  · simp [runOnModule_eq, h]
  · simp [runOnModule_eq]
  · simp [runOnModule_eq]
  · simp [OutStream.create, h]
  · simp [OutStream.create, OutStream.write, OutStream.close, h]

/-- Witness of C9 (amended) on `entryExitModule` with error code 13. -/
theorem runOnModule_open_failure_witness :
    (13 : Nat) ≠ 0
    ∧ (runOnModule entryExitModule true showHex 13 DFGPass.new).artifact = none
    ∧ (runOnModule entryExitModule true showHex 13 DFGPass.new).returned = none
    ∧ (runOnModule entryExitModule true showHex 0 DFGPass.new).returned = some false
    ∧ (runOnModule entryExitModule true showHex 13 DFGPass.new).pass
        = (runOnModule entryExitModule true showHex 0 DFGPass.new).pass
    ∧ (OutStream.create 13).file = none
    ∧ (((OutStream.create 13).write
          (serialize entryExitModule.fnName showHex
            (buildGraph entryExitModule true DFGPass.new))).close).pendingError = true :=
  ⟨by decide, runOnModule_open_failure entryExitModule true showHex 13 DFGPass.new (by decide)⟩

/-- C10, counterexample: `anonymousPairModule` has two anonymous blocks and one successor
link between them; a run on a fresh pass leaves the counter at 4, not at 2, under either
evaluation order. -/
theorem runOnModule_counter_anonymousPair :
    ((bodyBlocks anonymousPairModule).filter fun BB =>
        isAnonymous anonymousPairModule.bbName (some BB.addr)).length = 2
    ∧ (runOnModule anonymousPairModule true showHex 0 DFGPass.new).pass.num = 4
    ∧ (runOnModule anonymousPairModule false showHex 0 DFGPass.new).pass.num = 4
    ∧ ¬ ((runOnModule anonymousPairModule true showHex 0 DFGPass.new).pass.num
          = DFGPass.new.num
            + ((bodyBlocks anonymousPairModule).filter fun BB =>
                isAnonymous anonymousPairModule.bbName (some BB.addr)).length) := by
  decide

/-- C10, amended. Counter discipline: one run of `runOnModule` advances the counter by the
number of anonymous blocks contained in functions with a body, plus the number of anonymous
endpoints of the data-flow edges it produces, plus the number of anonymous endpoints of the
control-flow edges it produces (source and target counted separately). -/
theorem runOnModule_counter (M : IRModule) (o : Bool) (showPtr : BlockPtr → String)
    (openError : Nat) (s : DFGPass) :
    (runOnModule M o showPtr openError s).pass.num
      = s.num
        + ((bodyBlocks M).filter fun BB => isAnonymous M.bbName (some BB.addr)).length
        + (((runOnModule M o showPtr openError s).pass.dataFlowEdges.map fun e =>
              anonymousEndpoints M.bbName (edgeIds e)).sum
          + ((runOnModule M o showPtr openError s).pass.controlFlowEdges.map fun e =>
              anonymousEndpoints M.bbName (edgeIds e)).sum) := by
  have hd : ((runOnModule M o showPtr openError s).pass.dataFlowEdges.map fun e =>
        anonymousEndpoints M.bbName (edgeIds e))
      = ((operandOccurrences M).filter crossBlock).map (anonymousEndpoints M.bbName) := by
    rw [← buildGraph_data M o s, List.map_map]
    rfl
  have hc : ((runOnModule M o showPtr openError s).pass.controlFlowEdges.map fun e =>
        anonymousEndpoints M.bbName (edgeIds e))
      = (successorLinks M).map (anonymousEndpoints M.bbName) := by
    rw [← buildGraph_control M o s, List.map_map]
    rfl
  rw [hd, hc]
  exact buildGraph_num M o s

/-- C12. Non-synthesized labels of `getBBName`: for every counter state, `getBBName` on the
null pointer returns `"undefined"`, and on a block with a non-empty name returns exactly
that name; in both cases the counter is unchanged. -/
theorem getBBName_not_synthesized (bbName : Nat → String) (num : Nat) :
    getBBName bbName none num = ("undefined", num)
    ∧ ∀ a : Nat, bbName a ≠ "" → getBBName bbName (some a) num = (bbName a, num) :=
  ⟨rfl, fun a ha => getBBName_named bbName a num ha⟩

/-- Witness of C12 on the block named `exit` of `entryExitModule`, counter 3. -/
theorem getBBName_not_synthesized_witness :
    entryExitModule.bbName 32 ≠ ""
    ∧ getBBName entryExitModule.bbName (some 32) 3 = ("exit", 3) :=
  ⟨by decide, (getBBName_not_synthesized entryExitModule.bbName 3).2 32 (by decide)⟩

/-- C13. Rebuild from scratch, as far as the code goes: lines 53-55 clear the two edge lists
and the node map, and leave `num` as the earlier invocation left it.  For every module and
every prior state of the pass object, the keys of the node map, the block identities in each
node set and the identity pairs of the two edge lists after `runOnModule` are those produced
by a freshly constructed pass, whatever the prior collections held.  The counter is not
rebuilt: the counter value at the insertion of every node, from which the label of an
anonymous block is synthesized, and the counter value at the end of the run are those of a
freshly constructed pass plus the prior counter; so after an earlier invocation that left
the counter above 0 no label is synthesized from the counter value a fresh pass uses. -/
theorem runOnModule_rebuilds (M : IRModule) (o : Bool) (showPtr : BlockPtr → String)
    (openError : Nat) (s : DFGPass) :
    (runOnModule M o showPtr openError s).pass.functionNodes.map Prod.fst
        = (runOnModule M o showPtr openError DFGPass.new).pass.functionNodes.map Prod.fst
    ∧ (∀ (k : Nat) (p : BlockPtr),
        p ∈ (nodeSetOf k (runOnModule M o showPtr openError s).pass.functionNodes).map Prod.fst
          ↔ p ∈ (nodeSetOf k
                  (runOnModule M o showPtr openError DFGPass.new).pass.functionNodes).map
                Prod.fst)
    ∧ (runOnModule M o showPtr openError s).pass.dataFlowEdges.map edgeIds
        = (runOnModule M o showPtr openError DFGPass.new).pass.dataFlowEdges.map edgeIds
    ∧ (runOnModule M o showPtr openError s).pass.controlFlowEdges.map edgeIds
        = (runOnModule M o showPtr openError DFGPass.new).pass.controlFlowEdges.map edgeIds
    ∧ (runOnModule M o showPtr openError s).pass.num
        = s.num + (runOnModule M o showPtr openError DFGPass.new).pass.num
    ∧ (∀ (pre : List IRFunction) (F : IRFunction) (bpre : List BasicBlock),
        (stateAtInsertion M o s pre F bpre).num
          = s.num + (stateAtInsertion M o DFGPass.new pre F bpre).num)
    ∧ (0 < s.num → ∀ (pre : List IRFunction) (F : IRFunction) (bpre : List BasicBlock),
        (stateAtInsertion M o s pre F bpre).num
          ≠ (stateAtInsertion M o DFGPass.new pre F bpre).num) := by
  refine ⟨?_, fun k p => ?_, ?_, ?_, ?_, fun pre F bpre => stateAtInsertion_shift M o s pre F bpre,
    fun hs pre F bpre => ?_⟩
  · apply keys_eq_of_same_members _ _ (containersOrdered_buildGraph M o s).1
      (containersOrdered_buildGraph M o DFGPass.new).1
    intro k
    show k ∈ (buildGraph M o s).functionNodes.map Prod.fst
      ↔ k ∈ (buildGraph M o DFGPass.new).functionNodes.map Prod.fst
    rw [buildGraph_keys, buildGraph_keys]
  · show p ∈ (nodeSetOf k (buildGraph M o s).functionNodes).map Prod.fst
      ↔ p ∈ (nodeSetOf k (buildGraph M o DFGPass.new).functionNodes).map Prod.fst
    rw [buildGraph_nodeSetOf_ids, buildGraph_nodeSetOf_ids]
  · show (buildGraph M o s).dataFlowEdges.map edgeIds
      = (buildGraph M o DFGPass.new).dataFlowEdges.map edgeIds
    rw [buildGraph_data, buildGraph_data]
  · show (buildGraph M o s).controlFlowEdges.map edgeIds
      = (buildGraph M o DFGPass.new).controlFlowEdges.map edgeIds
    rw [buildGraph_control, buildGraph_control]
  · show (buildGraph M o s).num = s.num + (buildGraph M o DFGPass.new).num
    rw [buildGraph_num, buildGraph_num]
    simp only [DFGPass.new]
    omega
  · have h := stateAtInsertion_shift M o s pre F bpre
    omega

/-- Witness of C13 on `anonymousPairModule`, run a second time on the pass object that the
first run left behind: the first run ends with the counter at 4, the second run with the
counter at 8; in the second run the nodes of the two blocks are inserted when the counter
is 4 and 5, where a fresh pass has 0 and 1. -/
theorem runOnModule_rebuilds_witness :
    (runOnModule anonymousPairModule true showHex 0 DFGPass.new).pass.num = 4
    ∧ (runOnModule anonymousPairModule true showHex 0
        (runOnModule anonymousPairModule true showHex 0 DFGPass.new).pass).pass.num = 4 + 4
    ∧ (stateAtInsertion anonymousPairModule true
        (runOnModule anonymousPairModule true showHex 0 DFGPass.new).pass []
        (IRFunction.mk 4096 false [BasicBlock.mk 16 [] [some 32], BasicBlock.mk 32 [] []])
        []).num = 4 + 0
    ∧ (stateAtInsertion anonymousPairModule true
        (runOnModule anonymousPairModule true showHex 0 DFGPass.new).pass []
        (IRFunction.mk 4096 false [BasicBlock.mk 16 [] [some 32], BasicBlock.mk 32 [] []])
        [BasicBlock.mk 16 [] [some 32]]).num = 4 + 1
    ∧ (stateAtInsertion anonymousPairModule true
        (runOnModule anonymousPairModule true showHex 0 DFGPass.new).pass []
        (IRFunction.mk 4096 false [BasicBlock.mk 16 [] [some 32], BasicBlock.mk 32 [] []])
        [BasicBlock.mk 16 [] [some 32]]).num
      ≠ (stateAtInsertion anonymousPairModule true DFGPass.new []
        (IRFunction.mk 4096 false [BasicBlock.mk 16 [] [some 32], BasicBlock.mk 32 [] []])
        [BasicBlock.mk 16 [] [some 32]]).num :=
  ⟨by decide,
   (runOnModule_rebuilds anonymousPairModule true showHex 0
      (runOnModule anonymousPairModule true showHex 0 DFGPass.new).pass).2.2.2.2.1,
   (runOnModule_rebuilds anonymousPairModule true showHex 0
      (runOnModule anonymousPairModule true showHex 0 DFGPass.new).pass).2.2.2.2.2.1 []
      (IRFunction.mk 4096 false [BasicBlock.mk 16 [] [some 32], BasicBlock.mk 32 [] []]) [],
   (runOnModule_rebuilds anonymousPairModule true showHex 0
      (runOnModule anonymousPairModule true showHex 0 DFGPass.new).pass).2.2.2.2.2.1 []
      (IRFunction.mk 4096 false [BasicBlock.mk 16 [] [some 32], BasicBlock.mk 32 [] []])
      [BasicBlock.mk 16 [] [some 32]],
   (runOnModule_rebuilds anonymousPairModule true showHex 0
      (runOnModule anonymousPairModule true showHex 0 DFGPass.new).pass).2.2.2.2.2.2
      (by decide) []
      (IRFunction.mk 4096 false [BasicBlock.mk 16 [] [some 32], BasicBlock.mk 32 [] []])
      [BasicBlock.mk 16 [] [some 32]]⟩

/-- C14. Node-set membership: for every module in which every block belongs to exactly one
function (blocks and functions having addresses of their own), after `runOnModule` the
function map holds for each function with a body one node set, the block identities in it
are exactly the identities of the blocks of that function, it has one node per block, and no
block identity occurs in the node sets of two different functions. -/
theorem runOnModule_node_sets (M : IRModule) (o : Bool) (showPtr : BlockPtr → String)
    (openError : Nat) (s : DFGPass) (hB : distinctBlocks M) (hFn : distinctFunctions M) :
    (∀ F ∈ M.functions, F.isDeclaration = false →
        (F.addr, nodeSetOf F.addr (runOnModule M o showPtr openError s).pass.functionNodes)
            ∈ (runOnModule M o showPtr openError s).pass.functionNodes
        ∧ (∀ p : BlockPtr,
            p ∈ (nodeSetOf F.addr
                  (runOnModule M o showPtr openError s).pass.functionNodes).map Prod.fst
              ↔ ∃ B ∈ F.blocks, p = some B.addr)
        ∧ (nodeSetOf F.addr (runOnModule M o showPtr openError s).pass.functionNodes).length
            = F.blocks.length)
    ∧ (∀ F ∈ M.functions, ∀ G ∈ M.functions, F.isDeclaration = false →
        G.isDeclaration = false → F.addr ≠ G.addr → ∀ p : BlockPtr,
        p ∈ (nodeSetOf F.addr
              (runOnModule M o showPtr openError s).pass.functionNodes).map Prod.fst →
        p ∉ (nodeSetOf G.addr
              (runOnModule M o showPtr openError s).pass.functionNodes).map Prod.fst) := by
  have hrun : (runOnModule M o showPtr openError s).pass = buildGraph M o s := rfl
  rw [hrun]
  have hids : ∀ F ∈ M.functions, F.isDeclaration = false → ∀ p : BlockPtr,
      p ∈ (nodeSetOf F.addr (buildGraph M o s).functionNodes).map Prod.fst
        ↔ ∃ B ∈ F.blocks, p = some B.addr := by
    intro F hF hd p
    rw [buildGraph_nodeSetOf_ids]
    constructor
    · rintro ⟨G, hG, hGd, hGF, hBs⟩
      have hFG : G = F := eq_of_addr_of_distinctFunctions M hFn G F
        ((mem_bodyFunctions_iff M G).mpr ⟨hG, hGd⟩) ((mem_bodyFunctions_iff M F).mpr ⟨hF, hd⟩)
        hGF
      rw [← hFG]
      exact hBs
    · intro h
      exact ⟨F, hF, hd, rfl, h⟩
  refine ⟨fun F hF hd => ⟨?_, hids F hF hd, ?_⟩, ?_⟩
  · exact nodeSetOf_mem F.addr _ ((buildGraph_keys M o s F.addr).mpr ⟨F, hF, hd, rfl⟩)
  · refine (foldl_visitFunction_exact M o M.functions _ (containersOrdered_cleared s) hFn
      (fun G hG hGd => blocks_nodup_of_distinctBlocks M hB G
        ((mem_bodyFunctions_iff M G).mpr ⟨hG, hGd⟩))
      (fun G _ _ => rfl) F hF hd).2
  · intro F hF G hG hd hGd hne p hpF hpG
    obtain ⟨B, hBF, hpB⟩ := (hids F hF hd p).mp hpF
    obtain ⟨B', hBG, hpB'⟩ := (hids G hG hGd p).mp hpG
    have hFG : F ≠ G := fun hc => hne (by rw [hc])
    have := blocks_disjoint_of_distinctBlocks M hB F G
      ((mem_bodyFunctions_iff M F).mpr ⟨hF, hd⟩) ((mem_bodyFunctions_iff M G).mpr ⟨hG, hGd⟩)
      hFG B B' hBF hBG
    rw [hpB] at hpB'
    simp only [Option.some.injEq] at hpB'
    exact this hpB'

/-- Witness of C14 on `twoEntriesModule`: the node set of the function at 4096 has one
node, for the block at 16, and that block is in no node of the function at 8192. -/
theorem runOnModule_node_sets_witness :
    distinctBlocks twoEntriesModule ∧ distinctFunctions twoEntriesModule
    ∧ (nodeSetOf 4096
        (runOnModule twoEntriesModule true showHex 0 DFGPass.new).pass.functionNodes).length = 1
    ∧ (∀ p : BlockPtr,
        p ∈ (nodeSetOf 4096
              (runOnModule twoEntriesModule true showHex 0 DFGPass.new).pass.functionNodes).map
            Prod.fst
          ↔ ∃ B ∈ [BasicBlock.mk 16 [] []], p = some B.addr) :=
  ⟨by decide, by decide,
   ((runOnModule_node_sets twoEntriesModule true showHex 0 DFGPass.new (by decide)
      (by decide)).1 (IRFunction.mk 4096 false [BasicBlock.mk 16 [] []]) (by decide) rfl).2.2,
   ((runOnModule_node_sets twoEntriesModule true showHex 0 DFGPass.new (by decide)
      (by decide)).1 (IRFunction.mk 4096 false [BasicBlock.mk 16 [] []]) (by decide) rfl).2.1⟩

/-- C15. No dangling edge endpoints: for every module in which every successor of a block
and every owning block of an instruction operand belongs to the same function as the using
block, every control-flow and data-flow edge produced by `runOnModule` has a function with
a body whose node set holds a node with the source identity and a node with the target
identity of the edge; so both `Node<id>` of the edge line are declared by node lines of the
output text. -/
theorem runOnModule_no_dangling (M : IRModule) (o : Bool) (showPtr : BlockPtr → String)
    (openError : Nat) (s : DFGPass) (hW : closedReferences M) (e : edge)
    (he : e ∈ (runOnModule M o showPtr openError s).pass.controlFlowEdges
            ++ (runOnModule M o showPtr openError s).pass.dataFlowEdges) :
    ∃ F ∈ M.functions, F.isDeclaration = false
      ∧ ∃ n1 ∈ nodeSetOf F.addr (runOnModule M o showPtr openError s).pass.functionNodes,
        ∃ n2 ∈ nodeSetOf F.addr (runOnModule M o showPtr openError s).pass.functionNodes,
          n1.1 = e.1.1 ∧ n2.1 = e.2.1
          ∧ nodeLine showPtr n1
              ∈ layoutLines M.fnName showPtr
                  (runOnModule M o showPtr openError s).pass.functionNodes
                  (runOnModule M o showPtr openError s).pass.controlFlowEdges
                  (runOnModule M o showPtr openError s).pass.dataFlowEdges
          ∧ nodeLine showPtr n2
              ∈ layoutLines M.fnName showPtr
                  (runOnModule M o showPtr openError s).pass.functionNodes
                  (runOnModule M o showPtr openError s).pass.controlFlowEdges
                  (runOnModule M o showPtr openError s).pass.dataFlowEdges := by
  have hrun : (runOnModule M o showPtr openError s).pass = buildGraph M o s := rfl
  rw [hrun] at he ⊢
  obtain ⟨F, hF, hd, ⟨B1, hB1, h1⟩, ⟨B2, hB2, h2⟩⟩ := edge_endpoints_closed M o s hW e he
  obtain ⟨k1, hk1⟩ := buildGraph_cover M o s F hF hd B1 hB1
  obtain ⟨k2, hk2⟩ := buildGraph_cover M o s F hF hd B2 hB2
  exact ⟨F, hF, hd, _, hk1, _, hk2, h1.symm, h2.symm,
    nodeLine_mem_layout M.fnName showPtr _ _ _ F.addr _ hk1,
    nodeLine_mem_layout M.fnName showPtr _ _ _ F.addr _ hk2⟩

/-- Witness of C15 on `entryExitModule` and its edge entry -> exit. -/
theorem runOnModule_no_dangling_witness :
    closedReferences entryExitModule
    ∧ ∃ F ∈ entryExitModule.functions, F.isDeclaration = false
      ∧ ∃ n1 ∈ nodeSetOf F.addr
            (runOnModule entryExitModule true showHex 0 DFGPass.new).pass.functionNodes,
        ∃ n2 ∈ nodeSetOf F.addr
            (runOnModule entryExitModule true showHex 0 DFGPass.new).pass.functionNodes,
          n1.1 = some 16 ∧ n2.1 = some 32
          ∧ nodeLine showHex n1
              ∈ layoutLines entryExitModule.fnName showHex
                  (runOnModule entryExitModule true showHex 0 DFGPass.new).pass.functionNodes
                  (runOnModule entryExitModule true showHex 0 DFGPass.new).pass.controlFlowEdges
                  (runOnModule entryExitModule true showHex 0 DFGPass.new).pass.dataFlowEdges
          ∧ nodeLine showHex n2
              ∈ layoutLines entryExitModule.fnName showHex
                  (runOnModule entryExitModule true showHex 0 DFGPass.new).pass.functionNodes
                  (runOnModule entryExitModule true showHex 0 DFGPass.new).pass.controlFlowEdges
                  (runOnModule entryExitModule true showHex 0 DFGPass.new).pass.dataFlowEdges :=
  ⟨by unfold closedReferences; decide,
   runOnModule_no_dangling entryExitModule true showHex 0 DFGPass.new
    (by unfold closedReferences; decide) ((some 16, "entry"), (some 32, "exit")) (by decide)⟩

/-- C16. Exact counter growth: for every module and every starting counter value, after
`runOnModule` the counter is the starting value plus the number of anonymous blocks in
functions with a body, plus the number of anonymous endpoints of all data-flow edges, plus
the number of anonymous endpoints of all control-flow edges (source and target counted
separately); and the node of an anonymous block is inserted into the node set of its
function when the counter is the starting value plus the same three counts taken over what
was visited before that moment, which is the value `m` from which `getBBName` synthesizes
`BB_<m>` for it.  The node set then holds the identity of the block; its label is a view of
the temporary that held `BB_<m>`, destroyed when `getBBName` returned, and nothing is said
of what is read through it. -/
theorem runOnModule_counter_growth (M : IRModule) (o : Bool) (showPtr : BlockPtr → String)
    (openError : Nat) (s : DFGPass) :
    (runOnModule M o showPtr openError s).pass.num
        = s.num
          + ((bodyBlocks M).filter fun BB => isAnonymous M.bbName (some BB.addr)).length
          + (((runOnModule M o showPtr openError s).pass.dataFlowEdges.map fun e =>
                anonymousEndpoints M.bbName (edgeIds e)).sum
            + ((runOnModule M o showPtr openError s).pass.controlFlowEdges.map fun e =>
                anonymousEndpoints M.bbName (edgeIds e)).sum)
    ∧ ∀ (pre post : List IRFunction) (F : IRFunction) (bpre bpost : List BasicBlock)
        (B : BasicBlock),
        M.functions = pre ++ F :: post → F.isDeclaration = false →
        F.blocks = bpre ++ B :: bpost → M.bbName B.addr = "" →
        some B.addr
            ∈ (nodeSetOf F.addr (runOnModule M o showPtr openError s).pass.functionNodes).map
                Prod.fst
        ∧ returnsDanglingView M.bbName (some B.addr) = true
        ∧ (getBBName M.bbName (some B.addr) (stateAtInsertion M o s pre F bpre).num).2
            = (stateAtInsertion M o s pre F bpre).num + 1
        ∧ (stateAtInsertion M o s pre F bpre).num
            = s.num
              + (((bodyBlocks { M with functions := pre }).filter fun BB =>
                    isAnonymous M.bbName (some BB.addr)).length
                + (bpre.filter fun BB => isAnonymous M.bbName (some BB.addr)).length)
              + (((((operandOccurrences { M with functions := pre }).filter crossBlock).map
                    (anonymousEndpoints M.bbName)).sum
                  + (((bpre.flatMap blockOccurrences).filter crossBlock).map
                      (anonymousEndpoints M.bbName)).sum)
                + ((successorLinks { M with functions := pre }).map
                    (anonymousEndpoints M.bbName)).sum) := by
  refine ⟨buildGraph_num_edges M o s,
    fun pre post F bpre bpost B hM hd hF hB => ⟨?_, ?_, ?_, ?_⟩⟩
  · exact stateAtInsertion_member M o s pre post F bpre bpost B hM hd hF
  · simp [returnsDanglingView, hB]
  · rw [getBBName_num]
    simp [isAnonymous, hB]
  · exact stateAtInsertion_num M o s pre F bpre

/-- Witness of C16 on `threeAnonymousModule`, starting counter 10: when the node of the
third block is inserted the counter is 14 (two anonymous blocks and one data-flow edge with
two anonymous endpoints came before), the insertion moves it to 15, and the identity of the
block is in the node set of the function after the run. -/
theorem runOnModule_counter_growth_witness :
    (stateAtInsertion threeAnonymousModule true { DFGPass.new with num := 10 } []
        (IRFunction.mk 4096 false
          [ BasicBlock.mk 16 [] [some 32],
            BasicBlock.mk 32 [Instruction.mk [Value.instruction (some 16)]] [some 48],
            BasicBlock.mk 48 [] [] ])
        [ BasicBlock.mk 16 [] [some 32],
          BasicBlock.mk 32 [Instruction.mk [Value.instruction (some 16)]] [some 48] ]).num = 14
    ∧ some 48
        ∈ (nodeSetOf 4096
            (runOnModule threeAnonymousModule true showHex 0
              { DFGPass.new with num := 10 }).pass.functionNodes).map Prod.fst
    ∧ returnsDanglingView threeAnonymousModule.bbName (some 48) = true :=
  ⟨by decide,
   ((runOnModule_counter_growth threeAnonymousModule true showHex 0
      { DFGPass.new with num := 10 }).2 [] []
      (IRFunction.mk 4096 false
        [ BasicBlock.mk 16 [] [some 32],
          BasicBlock.mk 32 [Instruction.mk [Value.instruction (some 16)]] [some 48],
          BasicBlock.mk 48 [] [] ])
      [ BasicBlock.mk 16 [] [some 32],
        BasicBlock.mk 32 [Instruction.mk [Value.instruction (some 16)]] [some 48] ]
      [] (BasicBlock.mk 48 [] []) rfl rfl rfl rfl).1,
   ((runOnModule_counter_growth threeAnonymousModule true showHex 0
      { DFGPass.new with num := 10 }).2 [] []
      (IRFunction.mk 4096 false
        [ BasicBlock.mk 16 [] [some 32],
          BasicBlock.mk 32 [Instruction.mk [Value.instruction (some 16)]] [some 48],
          BasicBlock.mk 48 [] [] ])
      [ BasicBlock.mk 16 [] [some 32],
        BasicBlock.mk 32 [Instruction.mk [Value.instruction (some 16)]] [some 48] ]
      [] (BasicBlock.mk 48 [] []) rfl rfl rfl rfl).2.1⟩

/-- C17. Named-only modules are consistent: for every module in which every block of every
function with a body has a non-empty name (references staying inside the function),
`runOnModule` leaves the label counter unchanged, and both endpoints of every edge of both
edge lists are, as full (identity, label) pairs, nodes of the node set of the function of
their blocks. -/
theorem runOnModule_named_consistent (M : IRModule) (o : Bool) (showPtr : BlockPtr → String)
    (openError : Nat) (s : DFGPass) (hW : closedReferences M)
    (hN : ∀ B ∈ bodyBlocks M, M.bbName B.addr ≠ "") :
    (runOnModule M o showPtr openError s).pass.num = s.num
    ∧ ∀ e ∈ (runOnModule M o showPtr openError s).pass.controlFlowEdges
            ++ (runOnModule M o showPtr openError s).pass.dataFlowEdges,
        ∃ F ∈ M.functions, F.isDeclaration = false
          ∧ e.1 ∈ nodeSetOf F.addr (runOnModule M o showPtr openError s).pass.functionNodes
          ∧ e.2 ∈ nodeSetOf F.addr (runOnModule M o showPtr openError s).pass.functionNodes := by
  have hrun : (runOnModule M o showPtr openError s).pass = buildGraph M o s := rfl
  rw [hrun]
  have hnamed : ∀ F ∈ M.functions, F.isDeclaration = false → ∀ B ∈ F.blocks,
      M.bbName B.addr ≠ "" :=
    fun F hF hd B hB => hN B (mem_bodyBlocks hF hd hB)
  have hends : ∀ e ∈ (buildGraph M o s).controlFlowEdges ++ (buildGraph M o s).dataFlowEdges,
      ∃ F ∈ M.functions, F.isDeclaration = false
        ∧ e.1 ∈ nodeSetOf F.addr (buildGraph M o s).functionNodes
        ∧ e.2 ∈ nodeSetOf F.addr (buildGraph M o s).functionNodes
        ∧ anonymousEndpoints M.bbName (edgeIds e) = 0 := by
    intro e he
    obtain ⟨F, hF, hd, ⟨B1, hB1, h1⟩, ⟨B2, hB2, h2⟩⟩ := edge_endpoints_closed M o s hW e he
    have he' : e ∈ (buildGraph M o s).dataFlowEdges ++ (buildGraph M o s).controlFlowEdges := by
      rw [List.mem_append] at he ⊢
      exact he.symm
    have hn1 := hnamed F hF hd B1 hB1
    have hn2 := hnamed F hF hd B2 hB2
    obtain ⟨j1, hj1⟩ := edgesResolved_buildGraph M o s e he' e.1 (Or.inl rfl)
    obtain ⟨j2, hj2⟩ := edgesResolved_buildGraph M o s e he' e.2 (Or.inr rfl)
    obtain ⟨k1, hk1⟩ := buildGraph_cover M o s F hF hd B1 hB1
    obtain ⟨k2, hk2⟩ := buildGraph_cover M o s F hF hd B2 hB2
    rw [h1, getBBName_named M.bbName B1.addr j1 hn1] at hj1
    rw [h2, getBBName_named M.bbName B2.addr j2 hn2] at hj2
    rw [getBBName_named M.bbName B1.addr k1 hn1] at hk1
    rw [getBBName_named M.bbName B2.addr k2 hn2] at hk2
    have e1 : e.1 = (some B1.addr, M.bbName B1.addr) := Prod.ext h1 hj1
    have e2 : e.2 = (some B2.addr, M.bbName B2.addr) := Prod.ext h2 hj2
    refine ⟨F, hF, hd, by rw [e1]; exact hk1, by rw [e2]; exact hk2, ?_⟩
    simp [anonymousEndpoints, edgeIds, h1, h2, isAnonymous, hn1, hn2]
  have hzero : ∀ e ∈ (buildGraph M o s).controlFlowEdges ++ (buildGraph M o s).dataFlowEdges,
      anonymousEndpoints M.bbName (edgeIds e) = 0 := by
    intro e he
    obtain ⟨_, _, _, _, _, h⟩ := hends e he
    exact h
  refine ⟨?_, fun e he => ?_⟩
  · rw [buildGraph_num_edges]
    have hblocks : ((bodyBlocks M).filter fun BB => isAnonymous M.bbName (some BB.addr)) = [] := by
      rw [List.filter_eq_nil_iff]
      intro B hB
      simp [isAnonymous, hN B hB]
    rw [hblocks,
      sum_map_eq_zero _ _ (fun e he => hzero e (List.mem_append.mpr (Or.inr he))),
      sum_map_eq_zero _ _ (fun e he => hzero e (List.mem_append.mpr (Or.inl he)))]
    simp
  · obtain ⟨F, hF, hd, h1, h2, _⟩ := hends e he
    exact ⟨F, hF, hd, h1, h2⟩

/-- Witness of C17 on `entryExitModule`: the counter stays at 5. -/
theorem runOnModule_named_consistent_witness :
    closedReferences entryExitModule
    ∧ (∀ B ∈ bodyBlocks entryExitModule, entryExitModule.bbName B.addr ≠ "")
    ∧ (runOnModule entryExitModule true showHex 0
        { DFGPass.new with num := 5 }).pass.num = 5 :=
  ⟨by unfold closedReferences; decide, by decide,
   (runOnModule_named_consistent entryExitModule true showHex 0 { DFGPass.new with num := 5 }
      (by unfold closedReferences; decide) (by decide)).1⟩

/-- C18. Synthesized labels never repeat, by the counter: in every sequence of calls of
`getBBName` from every starting counter value, a call on an anonymous block synthesizes its
label from the counter value at the call, which is the starting value plus the number of
earlier calls on anonymous blocks, and advances the counter by one; so two distinct calls on
anonymous blocks (on the same block or on different blocks) synthesize their labels from two
different counter values, the later call from the greater one, both below the counter
value that the sequence leaves behind.  Both calls hand the label
over as a view of a temporary that no longer exists when the caller receives it; nothing is
said of what the caller reads through the two views. -/
theorem getBBName_counters_never_repeat (bbName : Nat → String) (ps : List BlockPtr)
    (num i j : Nat) (p q : BlockPtr) (c d : Nat)
    (hij : i < j) (hp : ps[i]? = some p) (hq : ps[j]? = some q)
    (hc : (counterSequence bbName ps num)[i]? = some c)
    (hd : (counterSequence bbName ps num)[j]? = some d)
    (ha : isAnonymous bbName p = true) (hb : isAnonymous bbName q = true) :
    c < d
    ∧ c = num + ((ps.take i).filter fun r => isAnonymous bbName r).length
    ∧ d = num + ((ps.take j).filter fun r => isAnonymous bbName r).length
    ∧ d < num + (ps.filter fun r => isAnonymous bbName r).length
    ∧ (getBBName bbName p c).2 = c + 1
    ∧ (getBBName bbName q d).2 = d + 1
    ∧ returnsDanglingView bbName p = true
    ∧ returnsDanglingView bbName q = true := by
  have h1 := counterSequence_getElem bbName ps num i c hc
  have h2 := counterSequence_getElem bbName ps num j d hd
  have h3 := filter_take_lt bbName ps i j p hij hp ha
  have hj : j < ps.length := by
    by_contra hge
    rw [List.getElem?_eq_none (Nat.le_of_not_lt hge)] at hq
    exact Option.noConfusion hq
  have h4 := filter_take_lt bbName ps j ps.length q hj hq hb
  rw [List.take_length] at h4
  refine ⟨by omega, h1, h2, by omega, ?_, ?_, ?_, ?_⟩
  · rw [getBBName_num, ha]
    rfl
  · rw [getBBName_num, hb]
    rfl
  · rw [returnsDanglingView_eq, ha]
  · rw [returnsDanglingView_eq, hb]

/-- Witness of C18: two calls on the same anonymous block from counter 0; the first call
synthesizes from 0, the second from 1, and both return a dangling view. -/
theorem getBBName_counters_never_repeat_witness :
    counterSequence (fun _ => "") [some 16, some 16] 0 = [0, 1]
    ∧ (0 : Nat) < 1
    ∧ (getBBName (fun _ => "") (some 16) 0).2 = 0 + 1
    ∧ (getBBName (fun _ => "") (some 16) 1).2 = 1 + 1
    ∧ returnsDanglingView (fun _ => "") (some 16) = true :=
  ⟨by decide,
   (getBBName_counters_never_repeat (fun _ => "") [some 16, some 16] 0 0 1
      (some 16) (some 16) 0 1 (by decide) (by decide) (by decide) (by decide)
      (by decide) (by decide) (by decide)).1,
   (getBBName_counters_never_repeat (fun _ => "") [some 16, some 16] 0 0 1
      (some 16) (some 16) 0 1 (by decide) (by decide) (by decide) (by decide)
      (by decide) (by decide) (by decide)).2.2.2.2.1,
   (getBBName_counters_never_repeat (fun _ => "") [some 16, some 16] 0 0 1
      (some 16) (some 16) 0 1 (by decide) (by decide) (by decide) (by decide)
      (by decide) (by decide) (by decide)).2.2.2.2.2.1,
   (getBBName_counters_never_repeat (fun _ => "") [some 16, some 16] 0 0 1
      (some 16) (some 16) 0 1 (by decide) (by decide) (by decide) (by decide)
      (by decide) (by decide) (by decide)).2.2.2.2.2.2.1⟩

/-- C19. The serialized text ignores edge labels: for every node map and every two pairs of
edge lists that agree on the sequence of (source identity, target identity) pairs, whatever
the labels stored inside the edges, the serializer writes the identical text. -/
theorem serialize_ignores_edge_labels (fnName : Nat → String) (showPtr : BlockPtr → String)
    (s t : DFGPass) (hn : s.functionNodes = t.functionNodes)
    (hc : s.controlFlowEdges.map edgeIds = t.controlFlowEdges.map edgeIds)
    (hd : s.dataFlowEdges.map edgeIds = t.dataFlowEdges.map edgeIds) :
    serialize fnName showPtr s = serialize fnName showPtr t := by
  have hmap : ∀ es : edge_list,
      es.map (fun e => edgeLine showPtr (edgeIds e)) = (es.map edgeIds).map (edgeLine showPtr) :=
    fun es => by rw [List.map_map]; rfl
  rw [serialize_layout, serialize_layout]
  unfold layoutLines
  rw [hmap s.controlFlowEdges, hmap s.dataFlowEdges, hmap t.controlFlowEdges,
    hmap t.dataFlowEdges, hn, hc, hd]

/-- Witness of C19: the edges of the run on `anonymousPairModule` carry the labels `BB_2`
and `BB_3`; with the labels replaced by other strings the text is the same. -/
theorem serialize_ignores_edge_labels_witness :
    (runOnModule anonymousPairModule true showHex 0 DFGPass.new).pass.controlFlowEdges
        = [((some 16, "BB_2"), (some 32, "BB_3"))]
    ∧ serialize anonymousPairModule.fnName showHex
          (runOnModule anonymousPairModule true showHex 0 DFGPass.new).pass
        = serialize anonymousPairModule.fnName showHex
            { (runOnModule anonymousPairModule true showHex 0 DFGPass.new).pass with
              controlFlowEdges := [((some 16, "first"), (some 32, "second"))] } :=
  ⟨by decide,
   serialize_ignores_edge_labels anonymousPairModule.fnName showHex _ _ rfl (by decide) rfl⟩

end DFG
